import Mathlib

/-!
Verification of the moleculer-db entity-access layer
(`packages/moleculer-db/src/index.js` plus its error classes).

The JavaScript code is shallowly embedded: JS values that can appear in
documents and request parameters are modelled by the inductive type `JVal`
(numbers are modelled as integers; the float-only values that matter to the
control flow, namely `NaN`, get their own constructor).  Documents and query
records are association lists from field names to `JVal`.  Every function is
a direct translation of the corresponding source function, keeping its name.
-/

set_option maxRecDepth 4096
set_option linter.unusedVariables false

/-- JavaScript runtime values as far as this library inspects them. -/
inductive JVal where
  | undefined
  | null
  | nan
  | num (n : Int)
  | str (s : String)
  | bool (b : Bool)
  | arr (xs : List JVal)
  | obj (o : List (String × JVal))

/-- A document (or a plain parameter object): ordered field/value pairs. -/
abbrev Doc := List (String × JVal)

mutual

/-- Structural equality test on `JVal` (JS `===` / lodash SameValueZero,
restricted to the value space we model). -/
def JVal.beq : JVal → JVal → Bool
  | .undefined, .undefined => true
  | .null, .null => true
  | .nan, .nan => true
  | .num a, .num b => a == b
  | .str a, .str b => a == b
  | .bool a, .bool b => a == b
  | .arr a, .arr b => JVal.beqList a b
  | .obj a, .obj b => JVal.beqObj a b
  | _, _ => false
termination_by structural v => v

/-- Pointwise equality test on JS arrays. -/
def JVal.beqList : List JVal → List JVal → Bool
  | [], [] => true
  | a :: as, b :: bs => JVal.beq a b && JVal.beqList as bs
  | _, _ => false
termination_by structural v => v

/-- Pointwise equality test on JS objects (as ordered field lists). -/
def JVal.beqObj : List (String × JVal) → List (String × JVal) → Bool
  | [], [] => true
  | (k, v) :: as, (l, w) :: bs => k == l && JVal.beq v w && JVal.beqObj as bs
  | _, _ => false
termination_by structural v => v

end

/-- JS truthiness: `undefined`, `null`, `NaN`, `0`, `""` and `false` are
falsy; every object and array (even empty) is truthy. -/
def falsy : JVal → Bool
  | .undefined | .null | .nan => true
  | .num n => n == 0
  | .str s => s == ""
  | .bool b => !b
  | .arr _ => false
  | .obj _ => false

/-- Property read `o[k]` on a JS object: value of the first binding of `k`,
`undefined` when the key is missing. -/
def getField (d : Doc) (k : String) : JVal :=
  match d with
  | [] => .undefined
  | (k', v) :: rest => if k' = k then v else getField rest k

/-- Property write `o[k] = v`: replaces the first binding of `k` in place,
or appends a new binding (JS keeps the original key position on update). -/
def setField (d : Doc) (k : String) (v : JVal) : Doc :=
  match d with
  | [] => [(k, v)]
  | (k', v') :: rest => if k' = k then (k, v) :: rest else (k', v') :: setField rest k v

/-- Splitter used to model `String.prototype.split` with a one-character
separator (JS semantics: `"".split(s) = [""]`, empty pieces preserved). -/
def splitCharAux (c : Char) : List Char → List Char → List String
  | [], acc => [⟨acc.reverse⟩]
  | d :: ds, acc => if d = c then ⟨acc.reverse⟩ :: splitCharAux c ds [] else splitCharAux c ds (d :: acc)

/-- The `str.split(c)` operation. -/
def splitChar (c : Char) (s : String) : List String := splitCharAux c s.data []

/-- The `str.replace(/,/g, " ").split(" ")` idiom used by `sanitizeParams`
for `sort`, `fields`, `populate` and `searchFields`. -/
def jsSplitWords (s : String) : List String :=
  splitCharAux ' ' (s.data.map (fun c => if c = ',' then ' ' else c)) []

/-- The `parts.join(".")` operation. -/
def joinDot : List String → String
  | [] => ""
  | [p] => p
  | p :: ps => p ++ "." ++ joinDot ps

/-- The `str.indexOf(c) !== -1` test for a single character. -/
def strHasChar (c : Char) (s : String) : Bool := s.data.contains c

/-- The `hay.indexOf(needle) !== -1` substring test. -/
def strContainsSub (needle hay : String) : Bool :=
  let n := needle.data
  let rec go : List Char → Bool
    | [] => n.isEmpty
    | c :: cs => List.isPrefixOf n (c :: cs) || go cs
  go hay.data

/-- Lodash `_.capitalize`: first character upper-cased, the rest lower-cased. -/
def jsCapitalize (s : String) : String :=
  match s.data with
  | [] => ""
  | c :: rest => ⟨c.toUpper :: rest.map Char.toLower⟩

/-- Lodash `_.compact`: drop the falsy elements of an array. -/
def compactJ (xs : List JVal) : List JVal := xs.filter (fun v => !falsy v)

mutual

/-- Lodash `_.flattenDeep` on one element: an array contributes its own
deep flattening, any other value contributes itself. -/
def flattenDeepV : JVal → List JVal
  | .arr ys => flattenDeep ys
  | v => [v]
termination_by structural v => v

/-- Lodash `_.flattenDeep`: recursively flatten nested arrays. -/
def flattenDeep : List JVal → List JVal
  | [] => []
  | v :: rest => flattenDeepV v ++ flattenDeep rest
termination_by structural v => v

end

/-- Lodash `_.uniq`: keep the first occurrence of each value. -/
def uniqJ (xs : List JVal) : List JVal :=
  (xs.foldl (fun acc v => if (acc.filter (fun w => JVal.beq w v)).length > 0 then acc else acc ++ [v]) [])

/-- The `Number(string)` coercion, restricted to optionally-signed decimal
integer literals; the empty string converts to `0`, anything else that is
not such a literal converts to `NaN`.  (Fractional, exponent, hex and
whitespace forms are outside the value space this development needs.) -/
def numOfString (s : String) : JVal :=
  match s.data with
  | [] => .num 0
  | '-' :: cs =>
      if cs ≠ [] && cs.all Char.isDigit
      then .num (-(cs.foldl (fun acc c => acc * 10 + (c.toNat - 48)) 0 : Nat))
      else .nan
  | cs =>
      if cs.all Char.isDigit
      then .num ((cs.foldl (fun acc c => acc * 10 + (c.toNat - 48)) 0 : Nat))
      else .nan

/-- The JS `ToNumber` coercion on the modelled values, with `none` playing
the role of `NaN` (arrays convert through their string form; we model the
cases that can actually carry numeric content). -/
def toNumberOpt : JVal → Option Int
  | .undefined => none
  | .null => some 0
  | .nan => none
  | .num n => some n
  | .str s => match numOfString s with | .num n => some n | _ => none
  | .bool b => some (if b then 1 else 0)
  | .arr [] => some 0
  | .arr [.num n] => some n
  | .arr [.str s] => match numOfString s with | .num n => some n | _ => none
  | .arr _ => none
  | .obj _ => none

/-- The JS comparison `v > m` against an integer from the settings
(`NaN` compares false). -/
def jsGTInt (v : JVal) (m : Int) : Bool :=
  match toNumberOpt v with
  | some n => n > m
  | none => false

/-- The JS subtraction `v - m` (`NaN` propagates). -/
def jsSubInt (v : JVal) (m : Int) : JVal :=
  match toNumberOpt v with
  | some n => .num (n - m)
  | none => .nan

/-- The JS multiplication `a * b` (`NaN` propagates). -/
def jsMul (a b : JVal) : JVal :=
  match toNumberOpt a, toNumberOpt b with
  | some x, some y => .num (x * y)
  | _, _ => .nan

/-- Population rule shapes recognized by `populateDocs` after its own
normalization: a remote action name (a string rule, or an object rule whose
extra members are not needed by the claims below), or a user-supplied
handler function (kept opaque; its behavior is a parameter of the model). -/
inductive PopRule where
  | action (name : String)
  | handler
deriving DecidableEq

/-- The service settings recognized by the mixin (`settings` in the source,
with the documented defaults). -/
structure Settings where
  idField : String := "_id"
  fields : Option (List String) := none
  populates : List (String × PopRule) := []
  pageSize : Int := 10
  maxPageSize : Int := 100
  maxLimit : Int := -1
  softDelete : Bool := false

/-- Raw caller parameters of the query-path actions, each field holding an
arbitrary JS value (`undefined` = the key is absent). -/
structure RawParams where
  id : JVal := .undefined
  limit : JVal := .undefined
  offset : JVal := .undefined
  page : JVal := .undefined
  pageSize : JVal := .undefined
  sort : JVal := .undefined
  search : JVal := .undefined
  searchFields : JVal := .undefined
  fields : JVal := .undefined
  populate : JVal := .undefined
  mapping : JVal := .undefined
  query : JVal := .undefined
  ignoreSoftDelete : JVal := .undefined

/-- The `typeof v === "string"` coercion `Number(v)` applied by
`sanitizeParams` to `limit`, `offset`, `page` and `pageSize`. -/
def coerceNum : JVal → JVal
  | .str s => numOfString s
  | v => v

/-- The `typeof v === "string"` coercion `v.replace(/,/g, " ").split(" ")`
applied by `sanitizeParams` to `sort`, `fields`, `populate` and
`searchFields`. -/
def coerceWords : JVal → JVal
  | .str s => .arr ((jsSplitWords s).map JVal.str)
  | v => v

/-- The `sanitizeParams(ctx, params)` method.  `isList` is the
`ctx.action.name.endsWith(".list")` test. -/
def sanitizeParams (s : Settings) (isList : Bool) (params : RawParams) : RawParams :=
  let p := { params with
    limit := coerceNum params.limit, offset := coerceNum params.offset,
    page := coerceNum params.page, pageSize := coerceNum params.pageSize,
    sort := coerceWords params.sort, fields := coerceWords params.fields,
    populate := coerceWords params.populate, searchFields := coerceWords params.searchFields }
  let p :=
    if isList then
      let ps0 := if falsy p.pageSize then JVal.num s.pageSize else p.pageSize
      let pg := if falsy p.page then JVal.num 1 else p.page
      let ps1 := if s.maxPageSize > 0 && jsGTInt ps0 s.maxPageSize then JVal.num s.maxPageSize else ps0
      { p with pageSize := ps1, page := pg, limit := ps1,
               offset := jsMul (jsSubInt pg 1) ps1 }
    else p
  if s.maxLimit > 0 && jsGTInt p.limit s.maxLimit then { p with limit := JVal.num s.maxLimit } else p

/-- Whether a modelled JS value is a string. -/
def isStr : JVal → Bool
  | .str _ => true
  | _ => false

/-- The `while (parts.length > 1) { parts.pop(); ... }` loop of
`authorizeFields`: pop the last path segment, succeed as soon as the joined
remainder is in the allow-list. -/
def ancestorHit (settingsFields : List String) (parts : List String) : Bool :=
  match parts with
  | [] => false
  | [_] => false
  | p :: q :: rest =>
    let parts2 := (p :: q :: rest).dropLast
    if settingsFields.contains (joinDot parts2) then true
    else ancestorHit settingsFields parts2
termination_by parts.length
decreasing_by simp

/-- One iteration of the `fields.forEach(f => ...)` body of
`authorizeFields` over the accumulated `res` array: keep `f` verbatim when
allow-listed (and move on); otherwise keep it when a dotted ancestor is
allow-listed, and in addition append every allow-list entry that contains
`f + "."` as a substring. -/
def authStep (settingsFields : List String) (res : List String) (f : String) : List String :=
  if settingsFields.contains f then res ++ [f]
  else
    let res1 :=
      if strHasChar '.' f && ancestorHit settingsFields (splitChar '.' f) then res ++ [f] else res
    let nested := settingsFields.filter (fun prop => strContainsSub (f ++ ".") prop)
    if nested.length > 0 then res1 ++ nested else res1

/-- The `authorizeFields(fields)` method: no-op unless a non-empty
allow-list is configured; a missing or empty requested list yields an empty
effective list; otherwise the forEach loop above runs. -/
def authorizeFields (settingsFields : Option (List String)) (fields : Option (List String)) :
    Option (List String) :=
  match settingsFields with
  | some sf =>
    if sf.length > 0 then
      some (match fields with
        | some fs => if fs.length > 0 then fs.foldl (authStep sf) [] else []
        | none => [])
    else fields
  | none => fields

/-- The proper dotted prefixes of a split field path, shortest first. -/
def properPrefixes (parts : List String) : List String :=
  match parts with
  | [] => []
  | [_] => []
  | p :: q :: rest =>
    properPrefixes ((p :: q :: rest).dropLast) ++ [joinDot ((p :: q :: rest).dropLast)]
termination_by parts.length
decreasing_by simp

/-- The effective entries contributed by one requested field under a
configured allow-list, stated independently of the loop shape. -/
def authContribution (settingsFields : List String) (f : String) : List String :=
  if settingsFields.contains f then [f]
  else
    (if strHasChar '.' f && (properPrefixes (splitChar '.' f)).any (fun a => settingsFields.contains a)
     then [f] else []) ++
    settingsFields.filter (fun prop => strContainsSub (f ++ ".") prop)

/-- Clamp `x` down to `m` when the configured maximum `m` is positive and
exceeded (the arithmetic content of the two clamping rules in
`sanitizeParams`). -/
def clampPos (m x : Int) : Int := if 0 < m ∧ m < x then m else x

/-- Lookup `populatedDocs[id]` in a mapping-mode result object.  JS object
keys go through string conversion on both the producing side (`res[id] =
doc` in `_get`) and the consuming side, so an association list keyed by the
id value with structural equality models it. -/
def lookupJ (m : List (JVal × Doc)) (id : JVal) : Option Doc :=
  match m with
  | [] => none
  | (k, d) :: rest => if JVal.beq k id then some d else lookupJ rest id

/-- ID collection in `populateDocs`:
`_.uniq(_.flattenDeep(_.compact(arr.map(doc => doc[field]))))`. -/
def collectIds (docs : List Doc) (field : String) : List JVal :=
  uniqJ (flattenDeep (compactJ (docs.map (fun doc => getField doc field))))

/-- The value the `resultTransform` closure of `populateDocs` writes into a
relation field: a list-valued relation becomes the compacted list of
resolved entities (unmatched ids give `undefined`, dropped by `_.compact`);
a scalar relation becomes the single resolved entity, or `undefined` when
unmatched. -/
def popFieldValue (populatedDocs : List (JVal × Doc)) : JVal → JVal
  | .arr ids =>
      .arr (compactJ (ids.map (fun i =>
        match lookupJ populatedDocs i with
        | some ent => .obj ent
        | none => .undefined)))
  | id =>
      match lookupJ populatedDocs id with
      | some ent => .obj ent
      | none => .undefined

/-- The `resultTransform` closure of `populateDocs`, per document:
`doc[field]` is replaced by the resolved value above. -/
def popTransform (field : String) (populatedDocs : List (JVal × Doc)) (doc : Doc) : Doc :=
  setField doc field (popFieldValue populatedDocs (getField doc field))

/-- Record of one remote resolution call issued by `populateDocs` (the
`ctx.call(rule.action, { id: idList, mapping: true, populate: ...,
ignoreSoftDelete: true })` invocation); `field` records which relation rule
issued it. -/
structure PopCall where
  action : String
  field : String
  ids : List JVal

/-- One pending relation resolution in `populateDocs`: a remote call with
its mapping-mode result, or a custom handler application. -/
inductive PopTask where
  | remote (field : String) (mapping : List (JVal × Doc)) (call : PopCall)
  | custom (field : String) (ids : List JVal)

/-- Field owning a pending population task. -/
def taskField : PopTask → String
  | .remote f _ _ => f
  | .custom f _ => f

/-- Whether a population rule is a remote-operation reference. -/
def isActionRule : PopRule → Bool
  | .action _ => true
  | .handler => false

/-- Whether a JS value is an array. -/
def isArrJ : JVal → Bool
  | .arr _ => true
  | _ => false

/-- One population task applied to one document (when every requested rule
is a remote reference, `populateDocs` acts as a per-document map by these
steps). -/
def applyTask (t : PopTask) (d : Doc) : Doc :=
  match t with
  | .remote f m _ => popTransform f m d
  | .custom _ _ => d

/-- The synchronous `_.forIn(this.settings.populates, ...)` pass of
`populateDocs`: for each rule whose field is in the requested list, build
its pending resolution (remote call with its mapping-mode result, or
custom handler), collecting the ID list from the original documents; an
action rule with an empty ID list contributes nothing. -/
def popTasks (populates : List (String × PopRule))
    (resolver : String → List JVal → List (JVal × Doc))
    (docs : List Doc) (populateFields : List String) : List PopTask :=
  populates.filterMap (fun fr =>
    if populateFields.contains fr.1 then
      match fr.2 with
      | .handler => some (PopTask.custom fr.1 (collectIds docs fr.1))
      | .action name =>
        if (collectIds docs fr.1).length > 0 then
          some (PopTask.remote fr.1 (resolver name (collectIds docs fr.1))
            ⟨name, fr.1, collectIds docs fr.1⟩)
        else none
    else none)

def populateDocs (populates : List (String × PopRule))
    (resolver : String → List JVal → List (JVal × Doc))
    (hsem : String → List JVal → List Doc → List Doc)
    (docs : List Doc) (populateFields : List String) : List Doc × List PopCall :=
  if populates.isEmpty || populateFields.isEmpty then (docs, []) else
  let tasks := popTasks populates resolver docs populateFields
  (tasks.foldl (fun ds t =>
      match t with
      | .remote f m _ => ds.map (popTransform f m)
      | .custom f ids => hsem f ids ds) docs,
   tasks.filterMap (fun t => match t with | .remote _ _ c => some c | _ => none))

/-- Lodash `_.get` along an already-split dotted path (object steps only;
walking into a non-object yields `undefined`). -/
def lodashGetPath : JVal → List String → JVal
  | v, [] => v
  | .obj o, k :: ks => lodashGetPath (getField o k) ks
  | _, _ :: _ => .undefined

/-- Lodash `_.set` along an already-split dotted path: overwrite at the
leaf, creating (or replacing non-object values with) nested objects along
the way.  The lodash numeric-index array case is not modelled: the paths
in play are dotted object field lists. -/
def lodashSetPath (d : Doc) (path : List String) (v : JVal) : Doc :=
  match path with
  | [] => d
  | [k] => setField d k v
  | k :: k2 :: ks =>
    match getField d k with
    | .obj o => setField d k (.obj (lodashSetPath o (k2 :: ks) v))
    | _ => setField d k (.obj (lodashSetPath [] (k2 :: ks) v))

/-- The `fields.forEach(n => ...)` body of `filterFields`: copy
`_.get(doc, n)` into the result object when it is defined. -/
def ffStep (doc : Doc) (res : Doc) (n : String) : Doc :=
  match lodashGetPath (.obj doc) (splitChar '.' n) with
  | .undefined => res
  | v => lodashSetPath res (splitChar '.' n) v

/-- The `filterFields(doc, fields)` method: when `fields` is an array,
build a fresh object holding `_.get(doc, n)` at each listed path `n` whose
value is defined; otherwise return the document unchanged. -/
def filterFields (doc : Doc) (fields : Option (List String)) : Doc :=
  match fields with
  | some fs => fs.foldl (ffStep doc) []
  | none => doc

/-- The default `encodeID` method (the identity; overridable in schemas). -/
def encodeID (id : JVal) : JVal := id

/-- The default `decodeID` method (the identity). -/
def decodeID (id : JVal) : JVal := id

/-- Modelled from the spec: the adapter contract member
`entityToObject(native)` converts an adapter-native record into a plain
object; the stored documents of this model already are plain objects, so it
is the identity. -/
def entityToObject (doc : Doc) : Doc := doc

/-- Modelled from the spec: the adapter contract member
`afterRetrieveTransformID(doc, idField)`, the adapter-specific
post-retrieval identity normalization; with the conventional `_id` identity
field it is the identity. -/
def afterRetrieveTransformID (doc : Doc) (idField : String) : Doc := doc

/-- The per-document prefix of the transform pipeline: adapter conversion,
`doc[idField] = this.encodeID(doc[idField])`, then the adapter identity
normalization. -/
def transformDoc (s : Settings) (d : Doc) : Doc :=
  afterRetrieveTransformID
    (setField (entityToObject d) s.idField (encodeID (getField (entityToObject d) s.idField)))
    s.idField

/-- The slice of the (sanitized) request parameters that
`transformDocuments` consults. -/
structure TParams where
  fields : Option (List String) := none
  populate : Option (List String) := none

/-- The array pipeline of `transformDocuments`: convert and encode each
document, populate when `params.populate` is present, then filter fields
through `authorizeFields` (requested fields when given, the configured
allow-list otherwise). -/
def transformCollection (s : Settings)
    (resolver : String → List JVal → List (JVal × Doc))
    (hsem : String → List JVal → List Doc → List Doc)
    (params : TParams) (ds : List Doc) : List Doc × List PopCall :=
  let ds1 := ds.map (transformDoc s)
  let step2 := match params.populate with
    | some pf => populateDocs s.populates resolver hsem ds1 pf
    | none => (ds1, [])
  let fields := match params.fields with
    | some fs => some fs
    | none => s.fields
  let authFields := authorizeFields s.fields fields
  (step2.1.map (fun d => filterFields d authFields), step2.2)

/-- The three input shapes `transformDocuments` distinguishes: a single
object (wrapped and unwrapped around the array pipeline), an array, or a
non-object non-array scalar (passed through untouched). -/
inductive TDocs where
  | one (d : Doc)
  | many (ds : List Doc)
  | scalar (v : JVal)

/-- The `transformDocuments(ctx, params, docs)` method. -/
def transformDocuments (s : Settings)
    (resolver : String → List JVal → List (JVal × Doc))
    (hsem : String → List JVal → List Doc → List Doc)
    (params : TParams) (docs : TDocs) : TDocs × List PopCall :=
  match docs with
  | .scalar v => (.scalar v, [])
  | .one d =>
      let r := transformCollection s resolver hsem params [d]
      (match r.1 with
       | d' :: _ => .one d'
       | [] => .scalar .undefined, r.2)
  | .many ds =>
      let r := transformCollection s resolver hsem params ds
      (.many r.1, r.2)

/-- Scalar (non-container, defined) JS values, the shape an identity value
is expected to have. -/
def isScalarJ : JVal → Bool
  | .num _ => true
  | .str _ => true
  | _ => false

/-- The backing collection: an ordered list of documents. -/
abbrev Store := List Doc

/-- Modelled from the spec: the adapter contract member `findById(id)` —
the first document whose identity field equals the id (the concrete
adapters live outside this repository slice; §6 of the spec fixes the
contract). -/
def adapterFindById (idField : String) (store : Store) (id : JVal) : Option Doc :=
  store.find? (fun d => JVal.beq (getField d idField) id)

/-- Modelled from the spec: the adapter contract member `findByIds(ids)` —
the documents whose identity field is among the ids (an empty result is an
empty collection, not an absent value). -/
def adapterFindByIds (idField : String) (store : Store) (ids : List JVal) : List Doc :=
  store.filter (fun d => ids.any (fun i => JVal.beq (getField d idField) i))

/-- Whether a document matches an exact-match query object: every query
pair equals the document's field value. -/
def matchesQuery (q : Doc) (d : Doc) : Bool :=
  q.all (fun kv => JVal.beq (getField d kv.1) kv.2)

/-- Modelled from the spec: the adapter contract member `find(params)` —
filter by the query object, then apply `offset` and `limit` when they hold
numbers (sorting and text search are outside the claims below). -/
def adapterFind (store : Store) (query : Option Doc) (limit offsetV : JVal) : Store :=
  let base := match query with
    | some q => store.filter (matchesQuery q)
    | none => store
  let base := match offsetV with
    | .num o => base.drop o.toNat
    | _ => base
  match limit with
  | .num l => base.take l.toNat
  | _ => base

/-- Modelled from the spec: the adapter contract member `count(params)` —
the number of results `find(params)` would return (paging parameters are
honored when present, which is why `_count` and `_list` strip them). -/
def adapterCount (store : Store) (query : Option Doc) (limit offsetV : JVal) : Int :=
  ((adapterFind store query limit offsetV).length : Int)

/-- Modelled from the spec: the adapter contract member
`updateById(id, {"$set": sets})` — merge the field-level set-patch into the
matching document, returning the updated document and store, or nothing
when no document matches. -/
def adapterUpdateById (idField : String) (store : Store) (id : JVal) (sets : Doc) :
    Option (Doc × Store) :=
  match adapterFindById idField store id with
  | none => none
  | some d =>
    let d2 := sets.foldl (fun acc kv => setField acc kv.1 kv.2) d
    some (d2, store.map (fun e => if JVal.beq (getField e idField) id then d2 else e))

/-- Modelled from the spec: the adapter contract member `removeById(id)` —
remove and return the matching document, or nothing. -/
def adapterRemoveById (idField : String) (store : Store) (id : JVal) :
    Option (Doc × Store) :=
  match adapterFindById idField store id with
  | none => none
  | some d => some (d, store.filter (fun e => !(JVal.beq (getField e idField) id)))

/-- The error taxonomy of `errors.js`: both classes are 404 client errors
carrying the requested id(s) in their data payload. -/
inductive DbError where
  | entityNotFound (id : JVal)
  | entityLogicallyNotFound (id : JVal)

/-- Observable side effects of the mutation pipeline: the
`cache.clean.<fullName>` broadcast, the attached cacher purge, and a
lifecycle hook invocation carrying the transformed payload. -/
inductive Event where
  | broadcastCacheClean
  | cacherClean
  | hook (name : String) (json : TDocs)

/-- The service environment: the remote-call resolver and custom population
handlers behind `ctx.call` (for `populateDocs`), the lifecycle hooks the
schema defines, whether a cacher is attached to the broker, and the current
time (`new Date().getTime()` in the soft-delete remove path). -/
structure Env where
  resolver : String → List JVal → List (JVal × Doc) := fun _ _ => []
  hsem : String → List JVal → List Doc → List Doc := fun _ _ ds => ds
  hooks : List String := []
  cacher : Bool := true
  now : Int := 0

/-- The `clearCache` method: broadcast `cache.clean.<fullName>`, then purge
the attached cacher when one is present. -/
def clearCache (env : Env) : List Event :=
  Event.broadcastCacheClean :: (if env.cacher then [Event.cacherClean] else [])

/-- The `entityChanged(type, json, ctx)` method: clear the cache, then call
the `entity${_.capitalize(type)}` hook when the schema defines it. -/
def entityChanged (env : Env) (type : String) (json : TDocs) : List Event :=
  clearCache env ++
    (if env.hooks.contains ("entity" ++ jsCapitalize type)
     then [Event.hook ("entity" ++ jsCapitalize type) json] else [])

/-- The array payload of a JS value (empty for non-arrays). -/
def arrOf : JVal → List JVal
  | .arr xs => xs
  | _ => []

/-- The `getById(id, decoding)` method as `_get` calls it (decoding on):
an `_.isArray(id)` input goes through `findByIds` over the decoded ids, a
scalar through `findById`; the raw JS result feeds the `!doc` check. -/
def getById (s : Settings) (store : Store) (id : JVal) : JVal :=
  if isArrJ id then
    .arr ((adapterFindByIds s.idField store ((arrOf id).map decodeID)).map .obj)
  else
    match adapterFindById s.idField store (decodeID id) with
    | some d => .obj d
    | none => .undefined

/-- Bridge from a raw parameter object to the slice `transformDocuments`
reads: post-sanitization `fields` and `populate` are string arrays when
present and absent otherwise. -/
def tparamsOf (params : Doc) : TParams :=
  { fields := match getField params "fields" with
      | .arr vs => some (vs.filterMap (fun v => match v with | .str s => some s | _ => none))
      | _ => none,
    populate := match getField params "populate" with
      | .arr vs => some (vs.filterMap (fun v => match v with | .str s => some s | _ => none))
      | _ => none }

/-- The documents of a raw adapter result array (array entries are always
documents in the modelled store). -/
def docsOfJArr (v : JVal) : List Doc :=
  (arrOf v).filterMap (fun x => match x with | .obj d => some d | _ => none)

/-- Whether the transformed payload is an array (`_.isArray(json)`). -/
def isManyT : TDocs → Bool
  | .many _ => true
  | _ => false

/-- JS object-key string conversion for the identity values used as keys of
a mapping-mode result (scalar shapes only; containers do not occur as
identity values here). -/
def jsKeyOf : JVal → String
  | .str s => s
  | .num n => toString n
  | .bool b => if b then "true" else "false"
  | .null => "null"
  | .undefined => "undefined"
  | .nan => "NaN"
  | _ => ""

/-- The mapping-mode re-keying of `_get`: `res[origDoc[i][idField]] =
json[i]`. -/
def mappingResult (s : Settings) (origs : List Doc) (ds : List Doc) : TDocs :=
  .one ((origs.zip ds).foldl
    (fun res od => setField res (jsKeyOf (getField od.1 s.idField)) (.obj od.2)) [])

/-- The `_get(ctx, params)` method: `getById` with decoding, the `!doc`
check rejecting with `EntityNotFoundError(id)`, the document transform, and
the mapping-mode re-keying when the result is an array and `mapping` is
`true`. -/
def getMethod (s : Settings) (env : Env) (store : Store) (params : Doc) :
    Except DbError TDocs :=
  let id := getField params "id"
  let doc := getById s store id
  if falsy doc then .error (.entityNotFound id)
  else
    let json := (transformDocuments s env.resolver env.hsem (tparamsOf params)
      (match doc with
       | .obj d => .one d
       | .arr _ => .many (docsOfJArr doc)
       | v => .scalar v)).1
    match json with
    | .many ds =>
        if JVal.beq (getField params "mapping") (.bool true)
        then .ok (mappingResult s (docsOfJArr doc) ds)
        else .ok json
    | _ => .ok json

/-- The `isDeleted` read `data.isDeleted` on a transformed payload
(property access on an array or scalar yields `undefined`). -/
def isDeletedOf : TDocs → JVal
  | .one d => getField d "isDeleted"
  | _ => .undefined

/-- The `get` action handler under its soft-delete guard (its
`sanitizeParams` call only rewrites list/query keys, which the `get`
parameters do not carry, and is the identity here). -/
def getAction (s : Settings) (env : Env) (store : Store) (params : Doc) :
    Except DbError TDocs :=
  match getMethod s env store params with
  | .error e => .error e
  | .ok data =>
    if s.softDelete && falsy (getField params "ignoreSoftDelete") &&
        !(JVal.beq (isDeletedOf data) (.str "-1"))
    then .error (.entityLogicallyNotFound (getField params "id"))
    else .ok data

/-- The `_update(ctx, params)` method: every parameter key other than
`"id"` and the identity field goes into the `$set` patch (the id itself is
decoded from whichever of the two keys occurs last), then
`adapter.updateById`, the `!doc` check, the transform, and the `updated`
lifecycle dispatch. -/
def updateMethod (s : Settings) (env : Env) (store : Store) (params : Doc) :
    Except DbError (TDocs × Store × List Event) :=
  let id := params.foldl
    (fun acc kv => if kv.1 == "id" || kv.1 == s.idField then decodeID kv.2 else acc) JVal.undefined
  let sets := params.filter (fun kv => !(kv.1 == "id") && !(kv.1 == s.idField))
  match adapterUpdateById s.idField store id sets with
  | none => .error (.entityNotFound id)
  | some (doc, store2) =>
    let json := (transformDocuments s env.resolver env.hsem (tparamsOf params) (.one doc)).1
    .ok (json, store2, entityChanged env "updated" json)

/-- The `update` action handler: `_get` first (so soft-delete state can be
checked), the soft-delete rejection, then `_update`. -/
def updateAction (s : Settings) (env : Env) (store : Store) (params : Doc) :
    Except DbError (TDocs × Store × List Event) :=
  match getMethod s env store params with
  | .error e => .error e
  | .ok data =>
    if s.softDelete && !(JVal.beq (isDeletedOf data) (.str "-1"))
    then .error (.entityLogicallyNotFound (getField params "id"))
    else updateMethod s env store params

/-- The `_remove(ctx, params)` method: decode the id, `adapter.removeById`,
the `!doc` check, the transform, and the `removed` lifecycle dispatch. -/
def removeMethod (s : Settings) (env : Env) (store : Store) (params : Doc) :
    Except DbError (TDocs × Store × List Event) :=
  let id := decodeID (getField params "id")
  match adapterRemoveById s.idField store id with
  | none => .error (.entityNotFound (getField params "id"))
  | some (doc, store2) =>
    let json := (transformDocuments s env.resolver env.hsem (tparamsOf params) (.one doc)).1
    .ok (json, store2, entityChanged env "removed" json)

/-- The `remove` action handler (its `sanitizeParams` call is the identity
on the `{id}` parameters): hard delete without soft-delete mode; under
soft-delete mode `_get` first, rejection when the marker is already set,
otherwise `params.isDeleted = new Date().getTime()` and `_update`. -/
def removeAction (s : Settings) (env : Env) (store : Store) (params : Doc) :
    Except DbError (TDocs × Store × List Event) :=
  if !s.softDelete then removeMethod s env store params
  else
    match getMethod s env store params with
    | .error e => .error e
    | .ok data =>
      if !(JVal.beq (isDeletedOf data) (.str "-1"))
      then .error (.entityLogicallyNotFound (getField params "id"))
      else updateMethod s env store (setField params "isDeleted" (.num env.now))

/-- The query object of raw parameters, when one is present. -/
def queryOf (p : RawParams) : Option Doc :=
  match p.query with
  | .obj q => some q
  | _ => none

/-- Bridge from sanitized raw parameters to the `transformDocuments`
slice. -/
def tparamsOfRaw (p : RawParams) : TParams :=
  { fields := match p.fields with
      | .arr vs => some (vs.filterMap (fun v => match v with | .str s => some s | _ => none))
      | _ => none,
    populate := match p.populate with
      | .arr vs => some (vs.filterMap (fun v => match v with | .str s => some s | _ => none))
      | _ => none }

/-- The assembled `list` response. -/
structure ListResult where
  rows : TDocs
  total : Int
  page : JVal
  pageSize : JVal
  totalPages : JVal

/-- The `Math.floor((total + pageSize - 1) / pageSize)` computation of
`_list` (for a zero or non-numeric page size the JS float result is not a
number we model; the list flow always supplies a positive page size). -/
def jsTotalPages (total : Int) (pageSize : JVal) : JVal :=
  match pageSize with
  | .num ps => if ps = 0 then .nan else .num ((total + ps - 1).fdiv ps)
  | _ => .nan

/-- The `_list(ctx, params)` method: the paged `adapter.find` and the
`adapter.count` on a copy with truthy `limit`/`offset` nulled out are both
evaluated (concurrently in the source; neither depends on the other), the
found rows are transformed, and the response record is assembled. -/
def listMethod (s : Settings) (env : Env) (store : Store) (p : RawParams) :
    ListResult × List PopCall :=
  let countLimit := if !falsy p.limit then JVal.null else p.limit
  let countOffset := if !falsy p.offset then JVal.null else p.offset
  let rowsRaw := adapterFind store (queryOf p) p.limit p.offset
  let total := adapterCount store (queryOf p) countLimit countOffset
  let tr := transformDocuments s env.resolver env.hsem (tparamsOfRaw p) (.many rowsRaw)
  ({ rows := tr.1, total := total, page := p.page, pageSize := p.pageSize,
     totalPages := jsTotalPages total p.pageSize }, tr.2)

/-- The `list` action handler: sanitize in list mode, add the
`{isDeleted: "-1"}` query under soft-delete mode without an explicit
opt-out (`Object.assign(params.query || {}, ...)`), then `_list`. -/
def listAction (s : Settings) (env : Env) (store : Store) (params : RawParams) :
    ListResult × List PopCall :=
  let p := sanitizeParams s true params
  let p :=
    if s.softDelete && falsy p.ignoreSoftDelete then
      { p with query := JVal.obj (setField
          (match p.query with | .obj q => q | _ => []) "isDeleted" (.str "-1")) }
    else p
  listMethod s env store p

/-- The row list of a transformed payload. -/
def rowsList : TDocs → List Doc
  | .many ds => ds
  | .one d => [d]
  | .scalar _ => []

-- ===== end of definitions; theorems follow =====

@[simp] theorem coerceNum_num (n : Int) : coerceNum (.num n) = .num n := rfl

@[simp] theorem coerceNum_undef : coerceNum .undefined = .undefined := rfl

@[simp] theorem falsy_undef : falsy .undefined = true := rfl

@[simp] theorem falsy_num (n : Int) : falsy (.num n) = (n == 0) := rfl

@[simp] theorem jsGTInt_num (n m : Int) : jsGTInt (.num n) m = decide (n > m) := rfl

@[simp] theorem jsSubInt_num (n m : Int) : jsSubInt (.num n) m = .num (n - m) := rfl

@[simp] theorem jsMul_num (a b : Int) : jsMul (.num a) (.num b) = .num (a * b) := rfl

theorem clamp_step (m x : Int) :
    (if m > 0 && jsGTInt (.num x) m then JVal.num m else JVal.num x) = .num (clampPos m x) := by
  simp only [jsGTInt_num, clampPos]
  split_ifs with h1 h2 h2 <;> simp_all

/-- Claim C2: list-mode sanitization defaults `pageSize` and `page`, clamps
`pageSize` to a positive `maxPageSize`, derives `limit = pageSize` and
`offset = (page-1)*pageSize` overwriting caller-supplied values, and (for
any operation) clamps a resolved `limit` exceeding a positive `maxLimit`. -/
theorem spec2proof_c2 (s : Settings) (p : RawParams) (pg ps : Int)
    (hpg : p.page = .num pg) (hpg1 : 1 ≤ pg)
    (hps : p.pageSize = .num ps) (hps0 : 0 < ps) :
    ((sanitizeParams s true p).pageSize = .num (clampPos s.maxPageSize ps)) ∧
    ((sanitizeParams s true p).limit =
        .num (clampPos s.maxLimit (clampPos s.maxPageSize ps))) ∧
    ((sanitizeParams s true p).offset = .num ((pg - 1) * clampPos s.maxPageSize ps)) ∧
    ((sanitizeParams s true { p with pageSize := .undefined }).pageSize =
        .num (clampPos s.maxPageSize s.pageSize)) ∧
    ((sanitizeParams s true { p with page := .undefined }).page = .num 1) ∧
    ((sanitizeParams s true { p with page := .undefined }).offset = .num 0) ∧
    (∀ l : Int, (sanitizeParams s false { p with limit := .num l }).limit =
        .num (clampPos s.maxLimit l)) := by
  have hfps : falsy (JVal.num ps) = false := by simp; omega
  have hfpg : falsy (JVal.num pg) = false := by simp; omega
  refine ⟨?_, ?_, ?_, ?_, ?_, ?_, ?_⟩
  · simp [sanitizeParams, hpg, hps, hfps, clampPos]
    split_ifs <;> simp_all
  · simp [sanitizeParams, hpg, hps, hfps, clampPos]
    split_ifs <;> simp_all
  · simp [sanitizeParams, hpg, hps, hfps, hfpg, clampPos]
    split_ifs <;> simp_all
  · simp [sanitizeParams, hpg, clampPos]
    split_ifs <;> simp_all
  · simp [sanitizeParams, hps, hfps, clampPos]
    split_ifs <;> simp_all
  · simp [sanitizeParams, hps, hfps, clampPos]
    split_ifs <;> simp_all
  · intro l
    simp [sanitizeParams, clampPos]
    split_ifs <;> simp_all

theorem spec2proof_c2_witness :
    ((1 : Int) ≤ 2 ∧ (0 : Int) < 100) ∧
    (sanitizeParams { maxPageSize := 5 } true { page := .num 2, pageSize := .num 100 }).pageSize = .num 5 ∧
    (sanitizeParams { maxPageSize := 5 } true { page := .num 2, pageSize := .num 100 }).offset = .num 5 ∧
    (sanitizeParams { maxLimit := 10 } false { page := .num 2, pageSize := .num 100, limit := .num 50 }).limit = .num 10 := by
  have h := spec2proof_c2 { maxPageSize := 5 } { page := .num 2, pageSize := .num 100 } 2 100 rfl (by decide) rfl (by decide)
  have h2 := spec2proof_c2 { maxLimit := 10 } { page := .num 2, pageSize := .num 100 } 2 100 rfl (by decide) rfl (by decide)
  refine ⟨⟨by decide, by decide⟩, ?_, ?_, ?_⟩
  · simpa [clampPos] using h.1
  · simpa [clampPos] using h.2.2.1
  · simpa [clampPos] using h2.2.2.2.2.2.2 50

@[simp] theorem isStr_num (n : Int) : isStr (.num n) = false := rfl

@[simp] theorem isStr_numOfString (s : String) : isStr (numOfString s) = false := by
  unfold numOfString
  split
  · rfl
  · split_ifs <;> rfl
  · split_ifs <;> rfl

@[simp] theorem isStr_coerceNum (v : JVal) : isStr (coerceNum v) = false := by
  cases v <;> first | rfl | exact isStr_numOfString _

@[simp] theorem isStr_coerceWords (v : JVal) : isStr (coerceWords v) = false := by
  cases v <;> rfl

@[simp] theorem isStr_jsMul (a b : JVal) : isStr (jsMul a b) = false := by
  unfold jsMul
  split <;> rfl

/-- Claim C9: `sanitizeParams` is a total function on the whole JS-ish raw
parameter space (it is defined for every input, malformed or string-typed
values included) and its output is canonical: none of the eight sanitized
keys can still hold a raw string after sanitization. -/
theorem spec2proof_c9 (s : Settings) (isList : Bool) (p : RawParams) :
    isStr (sanitizeParams s isList p).limit = false ∧
    isStr (sanitizeParams s isList p).offset = false ∧
    isStr (sanitizeParams s isList p).page = false ∧
    isStr (sanitizeParams s isList p).pageSize = false ∧
    isStr (sanitizeParams s isList p).sort = false ∧
    isStr (sanitizeParams s isList p).fields = false ∧
    isStr (sanitizeParams s isList p).populate = false ∧
    isStr (sanitizeParams s isList p).searchFields = false := by
  unfold sanitizeParams
  cases isList <;>
    · simp only [Bool.false_eq_true, if_false, if_true, reduceIte]
      split_ifs <;> simp

theorem ancestorHit_eq_any_aux (sf : List String) (n : Nat) :
    ∀ parts : List String, parts.length ≤ n →
      ancestorHit sf parts = (properPrefixes parts).any (fun a => sf.contains a) := by
  induction n with
  | zero =>
    intro parts h
    have : parts = [] := List.eq_nil_of_length_eq_zero (by omega)
    subst this
    simp [ancestorHit, properPrefixes]
  | succ n ih =>
    intro parts h
    match parts with
    | [] => simp [ancestorHit, properPrefixes]
    | [p] => simp [ancestorHit, properPrefixes]
    | p :: q :: rest =>
      have hdl : (p :: (q :: rest).dropLast).length ≤ n := by
        simp at h ⊢
        omega
      rw [ancestorHit, properPrefixes]
      simp only [List.dropLast_cons_of_ne_nil (List.cons_ne_nil q rest)]
      by_cases hc : joinDot (p :: (q :: rest).dropLast) ∈ sf
      · simp [hc]
      · simp [hc, ih _ hdl, Bool.or_comm]

theorem ancestorHit_eq_any (sf : List String) (parts : List String) :
    ancestorHit sf parts = (properPrefixes parts).any (fun a => sf.contains a) :=
  ancestorHit_eq_any_aux sf parts.length parts le_rfl

theorem authStep_eq (sf : List String) (res : List String) (f : String) :
    authStep sf res f = res ++ authContribution sf f := by
  unfold authStep authContribution
  rw [ancestorHit_eq_any]
  split_ifs <;> simp_all [List.length_eq_zero]

theorem foldl_authStep (sf : List String) (fs : List String) (acc : List String) :
    fs.foldl (authStep sf) acc = acc ++ (fs.map (authContribution sf)).flatten := by
  induction fs generalizing acc with
  | nil => simp
  | cons f fs ih => simp [authStep_eq, ih, List.append_assoc]

/-- Claim C3 as frozen is false on the code: with allow-list
`["x.address.city"]` and requested `["address"]`, the entry
`"x.address.city"` is substituted in even though it is not a strict
sub-path of `"address"` (it does not start with `"address."`): the code
matches `f + "."` anywhere inside the allow-list entry. -/
theorem spec2proof_c3_cex :
    authorizeFields (some ["x.address.city"]) (some ["address"]) = some ["x.address.city"] ∧
    List.isPrefixOf "address.".data "x.address.city".data = false := by
  refine ⟨?_, by decide⟩
  rfl

/-- Claim C3 (amended): with a non-empty allow-list, each requested field
contributes, in request order: itself when allow-listed verbatim (and
nothing more); otherwise itself when some proper dotted ancestor is
allow-listed, plus every allow-list entry containing `field + "."` as a
substring anywhere (not only strict sub-paths, and appended even when the
ancestor check already kept the field); fields failing all checks are
dropped silently.  Without a configured (or with an empty) allow-list the
requested list passes through unchanged. -/
theorem spec2proof_c3 (sf fs : List String) (hsf : sf ≠ []) :
    (authorizeFields (some sf) (some fs) = some ((fs.map (authContribution sf)).flatten)) ∧
    (∀ fields, authorizeFields none fields = fields) ∧
    (∀ fields, authorizeFields (some []) fields = fields) := by
  refine ⟨?_, fun _ => rfl, fun _ => rfl⟩
  unfold authorizeFields
  have hlen : 0 < sf.length := List.length_pos.mpr hsf
  simp only [hlen, if_pos, gt_iff_lt]
  by_cases hfs : 0 < fs.length
  · simp [hfs, foldl_authStep]
  · have : fs = [] := by cases fs <;> simp_all
    subst this
    simp

theorem spec2proof_c3_witness :
    (["name", "address.city"] : List String) ≠ [] ∧
    authorizeFields (some ["name", "address.city"]) (some ["address"]) = some ["address.city"] := by
  have h := spec2proof_c3 ["name", "address.city"] ["address"] (by decide)
  refine ⟨by decide, ?_⟩
  rw [h.1]
  rfl

theorem getField_setField_self (d : Doc) (k : String) (v : JVal) :
    getField (setField d k v) k = v := by
  induction d with
  | nil => simp [setField, getField]
  | cons kv rest ih =>
    obtain ⟨k', v'⟩ := kv
    by_cases h : k' = k <;> simp [setField, getField, h, ih]

theorem getField_setField_ne (d : Doc) (k : String) (v : JVal) (k' : String) (h : k ≠ k') :
    getField (setField d k v) k' = getField d k' := by
  induction d with
  | nil => simp [setField, getField, h]
  | cons kv rest ih =>
    obtain ⟨k0, v0⟩ := kv
    by_cases h0 : k0 = k <;> simp [setField, getField, h0, h, ih]

theorem getField_transformDoc (s : Settings) (d : Doc) (k : String) :
    getField (transformDoc s d) k = getField d k := by
  unfold transformDoc afterRetrieveTransformID entityToObject encodeID
  by_cases h : s.idField = k
  · subst h
    exact getField_setField_self d s.idField _
  · exact getField_setField_ne d s.idField _ k h

theorem lodashGetPath_nil (v : JVal) : lodashGetPath v [] = v := by
  cases v <;> rfl

theorem lodashGetPath_cons_obj (o : Doc) (k : String) (ks : List String) :
    lodashGetPath (.obj o) (k :: ks) = lodashGetPath (getField o k) ks := rfl

theorem lodashGetPath_cons_scalar (v : JVal) (hs : isScalarJ v = true)
    (k : String) (ks : List String) : lodashGetPath v (k :: ks) = .undefined := by
  cases v <;> simp_all [isScalarJ, lodashGetPath]

theorem ffStep_pres (doc : Doc) (idF : String) (v : JVal)
    (hv : getField doc idF = v) (hs : isScalarJ v = true) (n : String) (res : Doc)
    (hres : getField res idF = v) :
    getField (ffStep doc res n) idF = v := by
  unfold ffStep
  rcases hpath : splitChar '.' n with _ | ⟨k, ks⟩
  · simpa [lodashGetPath, lodashSetPath] using hres
  · rcases ks with _ | ⟨k2, ks'⟩
    · rw [lodashGetPath_cons_obj, lodashGetPath_nil]
      by_cases hk : k = idF
      · subst hk
        rw [hv]
        cases v <;> simp_all [isScalarJ, lodashSetPath, getField_setField_self]
      · cases hw : getField doc k <;>
          simp_all [lodashSetPath, getField_setField_ne _ _ _ _ hk]
    · rw [lodashGetPath_cons_obj]
      by_cases hk : k = idF
      · subst hk
        rw [hv, lodashGetPath_cons_scalar v hs]
        simpa using hres
      · cases hw : lodashGetPath (getField doc k) (k2 :: ks') <;>
          first
          | simpa using hres
          | · simp only [lodashSetPath]
              cases hw2 : getField res k <;>
                simp_all [getField_setField_ne _ _ _ _ hk]

theorem ffFold_pres (doc : Doc) (idF : String) (v : JVal)
    (hv : getField doc idF = v) (hs : isScalarJ v = true) (l : List String) :
    ∀ res : Doc, getField res idF = v →
      getField (l.foldl (ffStep doc) res) idF = v := by
  induction l with
  | nil => intro res hres; simpa using hres
  | cons n l ih =>
    intro res hres
    exact ih _ (ffStep_pres doc idF v hv hs n res hres)

theorem ffStep_hit (doc : Doc) (idF : String) (v : JVal)
    (hv : getField doc idF = v) (hs : isScalarJ v = true)
    (hid : splitChar '.' idF = [idF]) (res : Doc) :
    getField (ffStep doc res idF) idF = v := by
  unfold ffStep
  rw [hid, lodashGetPath_cons_obj, lodashGetPath_nil, hv]
  cases v <;> simp_all [isScalarJ, lodashSetPath, getField_setField_self]

theorem filterFields_id (doc : Doc) (fs : List String) (idF : String) (v : JVal)
    (hv : getField doc idF = v) (hs : isScalarJ v = true)
    (hid : splitChar '.' idF = [idF]) (hmem : idF ∈ fs) :
    getField (filterFields doc (some fs)) idF = v := by
  obtain ⟨l1, l2, rfl⟩ := List.append_of_mem hmem
  have hff : filterFields doc (some (l1 ++ idF :: l2)) =
      (l1 ++ idF :: l2).foldl (ffStep doc) [] := rfl
  rw [hff, List.foldl_append, List.foldl_cons]
  exact ffFold_pres doc idF v hv hs l2 _ (ffStep_hit doc idF v hv hs hid _)

theorem authContribution_mem (fs : List String) (f : String) (h : f ∈ fs) :
    authContribution fs f = [f] := by
  unfold authContribution
  simp [h]

theorem flatten_authContribution (fs : List String) :
    ∀ l : List String, (∀ f ∈ l, f ∈ fs) → (l.map (authContribution fs)).flatten = l := by
  intro l
  induction l with
  | nil => simp
  | cons f l ih =>
    intro h
    simp only [List.map_cons, List.flatten_cons]
    rw [authContribution_mem fs f (h f (by simp)), ih (fun g hg => h g (by simp [hg]))]
    rfl

theorem authorizeFields_self (fs : List String) (h : fs ≠ []) :
    authorizeFields (some fs) (some fs) = some fs := by
  unfold authorizeFields
  have hlen : 0 < fs.length := List.length_pos.mpr h
  simp only [hlen, if_pos, gt_iff_lt]
  rw [foldl_authStep]
  simp [flatten_authContribution fs fs (fun f hf => hf)]

/-- Claim C8 as frozen is false on the code: with a configured allow-list
that omits the identity field, field filtering drops the identity — the
transformed entity has a blank (`undefined`) identity value. -/
theorem spec2proof_c8_cex :
    (transformDocuments { fields := some ["name"] } (fun _ _ => []) (fun _ _ ds => ds) {}
        (.one [("_id", .num 1), ("name", .str "a")])).1 = .one [("name", .str "a")] ∧
    getField [("name", .str "a")] "_id" = .undefined := ⟨rfl, rfl⟩

/-- Claim C8 (amended): the conversion, ID-encoding (identity by default)
and adapter-normalization stages preserve every field of every entity, and
for a population-free request the whole transform pipeline preserves the
identity value of every document — hence non-blankness and in-collection
uniqueness of identities — provided the effective field list contains the
identity field and identity values are scalars.  When the allow-list omits
the identity field, filtering drops it (see the counterexample). -/
theorem spec2proof_c8 (s : Settings) (fs : List String) (docs : List Doc)
    (resolver : String → List JVal → List (JVal × Doc))
    (hsem : String → List JVal → List Doc → List Doc)
    (hf : s.fields = some fs) (hmem : s.idField ∈ fs)
    (hid : splitChar '.' s.idField = [s.idField])
    (hscalar : ∀ d ∈ docs, isScalarJ (getField d s.idField) = true) :
    (∀ d k, getField (transformDoc s d) k = getField d k) ∧
    ((transformCollection s resolver hsem {} docs).1.map (fun d => getField d s.idField)
        = docs.map (fun d => getField d s.idField)) ∧
    (∀ d ∈ (transformCollection s resolver hsem {} docs).1, getField d s.idField ≠ .undefined) ∧
    ((docs.map (fun d => getField d s.idField)).Nodup →
      ((transformCollection s resolver hsem {} docs).1.map (fun d => getField d s.idField)).Nodup) := by
  have hfsne : fs ≠ [] := by
    intro hnil
    subst hnil
    simp at hmem
  have hmain : (transformCollection s resolver hsem {} docs).1.map (fun d => getField d s.idField)
      = docs.map (fun d => getField d s.idField) := by
    unfold transformCollection
    simp only [hf]
    rw [authorizeFields_self fs hfsne]
    simp only [List.map_map]
    apply List.map_congr_left
    intro d hd
    simp only [Function.comp]
    rw [filterFields_id (transformDoc s d) fs s.idField (getField d s.idField)
        (getField_transformDoc s d s.idField)
        (hscalar d hd) hid hmem]
  refine ⟨fun d k => getField_transformDoc s d k, hmain, ?_, ?_⟩
  · intro d hd
    have : getField d s.idField ∈
        (transformCollection s resolver hsem {} docs).1.map (fun d => getField d s.idField) :=
      List.mem_map_of_mem _ hd
    rw [hmain] at this
    obtain ⟨d0, hd0, heq⟩ := List.mem_map.mp this
    have := hscalar d0 hd0
    rw [heq] at this
    intro hu
    rw [hu] at this
    simp [isScalarJ] at this
  · intro hnd
    rw [hmain]
    exact hnd

theorem spec2proof_c8_witness :
    ("_id" ∈ ["_id", "name"]) ∧
    ((transformCollection { fields := some ["_id", "name"] } (fun _ _ => []) (fun _ _ ds => ds) {}
        [[("_id", .num 1), ("name", .str "a")], [("_id", .num 2)]]).1.map
          (fun d => getField d "_id") = [.num 1, .num 2]) := by
  have h := spec2proof_c8 { fields := some ["_id", "name"] } ["_id", "name"]
    [[("_id", .num 1), ("name", .str "a")], [("_id", .num 2)]]
    (fun _ _ => []) (fun _ _ ds => ds) rfl (by decide) (by decide) (by decide)
  exact ⟨by decide, h.2.1.trans rfl⟩

theorem uniqJ_pairwise_aux (xs : List JVal) :
    ∀ acc : List JVal, List.Pairwise (fun a b => JVal.beq a b = false) acc →
      List.Pairwise (fun a b => JVal.beq a b = false)
        (xs.foldl (fun acc v =>
          if (acc.filter (fun w => JVal.beq w v)).length > 0 then acc else acc ++ [v]) acc) := by
  induction xs with
  | nil => intro acc h; simpa using h
  | cons v xs ih =>
    intro acc h
    simp only [List.foldl_cons]
    by_cases hc : (acc.filter (fun w => JVal.beq w v)).length > 0
    · rw [if_pos hc]
      exact ih acc h
    · rw [if_neg hc]
      apply ih
      rw [List.pairwise_append]
      refine ⟨h, List.pairwise_singleton _ _, ?_⟩
      intro a ha b hb
      simp only [List.mem_singleton] at hb
      subst hb
      by_contra hab
      have hmemf : a ∈ acc.filter (fun w => JVal.beq w b) := by
        rw [List.mem_filter]
        refine ⟨ha, by simpa using hab⟩
      have hpos : 0 < (acc.filter (fun w => JVal.beq w b)).length :=
        List.length_pos.mpr (by intro hnil; rw [hnil] at hmemf; simp at hmemf)
      exact hc hpos

theorem collectIds_pairwise (docs : List Doc) (field : String) :
    List.Pairwise (fun a b => JVal.beq a b = false) (collectIds docs field) := by
  unfold collectIds uniqJ
  exact uniqJ_pairwise_aux _ [] List.Pairwise.nil

theorem getField_popTransform_self (f : String) (m : List (JVal × Doc)) (d : Doc) :
    getField (popTransform f m d) f = popFieldValue m (getField d f) :=
  getField_setField_self d f _

theorem getField_popTransform_ne (f : String) (m : List (JVal × Doc)) (d : Doc)
    (g : String) (h : f ≠ g) :
    getField (popTransform f m d) g = getField d g :=
  getField_setField_ne d f _ g h

theorem popTasks_mem_char (pops : List (String × PopRule))
    (resolver : String → List JVal → List (JVal × Doc)) (docs : List Doc)
    (pf : List String) (t : PopTask) (ht : t ∈ popTasks pops resolver docs pf) :
    ∃ fr ∈ pops, pf.contains fr.1 = true ∧
      ((∃ nm, fr.2 = PopRule.action nm ∧ (collectIds docs fr.1).length > 0 ∧
          t = PopTask.remote fr.1 (resolver nm (collectIds docs fr.1))
                ⟨nm, fr.1, collectIds docs fr.1⟩) ∨
       (fr.2 = PopRule.handler ∧ t = PopTask.custom fr.1 (collectIds docs fr.1))) := by
  unfold popTasks at ht
  obtain ⟨fr, hfr, hg⟩ := List.mem_filterMap.mp ht
  refine ⟨fr, hfr, ?_⟩
  by_cases hc : pf.contains fr.1 = true
  · simp only [hc, if_true] at hg
    refine ⟨hc, ?_⟩
    cases hr : fr.2 with
    | handler =>
      simp only [hr, Option.some.injEq] at hg
      exact Or.inr ⟨rfl, hg.symm⟩
    | action nm =>
      simp only [hr] at hg
      by_cases hl : (collectIds docs fr.1).length > 0
      · rw [if_pos hl] at hg
        simp only [Option.some.injEq] at hg
        exact Or.inl ⟨nm, rfl, hl, hg.symm⟩
      · rw [if_neg hl] at hg
        simp at hg
  · simp only [hc] at hg
    simp at hg

theorem popTasks_field_mem (pops : List (String × PopRule))
    (resolver : String → List JVal → List (JVal × Doc)) (docs : List Doc)
    (pf : List String) (t : PopTask) (ht : t ∈ popTasks pops resolver docs pf) :
    taskField t ∈ pops.map Prod.fst := by
  obtain ⟨fr, hfr, _, hcase⟩ := popTasks_mem_char pops resolver docs pf t ht
  have : taskField t = fr.1 := by
    rcases hcase with ⟨nm, _, _, rfl⟩ | ⟨_, rfl⟩ <;> rfl
  rw [this]
  exact List.mem_map_of_mem _ hfr

theorem popTasks_all_remote (pops : List (String × PopRule))
    (resolver : String → List JVal → List (JVal × Doc)) (docs : List Doc)
    (pf : List String) (hall : ∀ p ∈ pops, isActionRule p.2 = true) :
    ∀ t ∈ popTasks pops resolver docs pf, ∃ f m c, t = PopTask.remote f m c := by
  intro t ht
  obtain ⟨fr, hfr, _, hcase⟩ := popTasks_mem_char pops resolver docs pf t ht
  rcases hcase with ⟨nm, _, _, rfl⟩ | ⟨hh, _⟩
  · exact ⟨_, _, _, rfl⟩
  · have := hall fr hfr
    rw [hh] at this
    simp [isActionRule] at this

theorem popFold_map (hsem : String → List JVal → List Doc → List Doc) (ts : List PopTask)
    (hrem : ∀ t ∈ ts, ∃ f m c, t = PopTask.remote f m c) :
    ∀ docs : List Doc,
      ts.foldl (fun ds t =>
        match t with
        | .remote f m _ => ds.map (popTransform f m)
        | .custom f ids => hsem f ids ds) docs
      = docs.map (fun d => ts.foldl (fun x t => applyTask t x) d) := by
  induction ts with
  | nil => intro docs; simp
  | cons t ts ih =>
    intro docs
    obtain ⟨f, m, c, rfl⟩ := hrem t (by simp)
    simp only [List.foldl_cons]
    rw [ih (fun t' ht' => hrem t' (by simp [ht'])) (docs.map (popTransform f m))]
    rw [List.map_map]
    rfl

theorem popApplyAll_other (ts : List PopTask) (fld : String)
    (hno : ∀ t ∈ ts, taskField t ≠ fld) :
    ∀ d : Doc, getField (ts.foldl (fun x t => applyTask t x) d) fld = getField d fld := by
  induction ts with
  | nil => intro d; rfl
  | cons t ts ih =>
    intro d
    simp only [List.foldl_cons]
    rw [ih (fun t' ht' => hno t' (by simp [ht']))]
    cases t with
    | remote f m c =>
      exact getField_popTransform_ne f m d fld
        (by simpa [taskField] using hno (PopTask.remote f m c) (by simp))
    | custom f ids => rfl

theorem popTasks_single_action (resolver : String → List JVal → List (JVal × Doc))
    (docs : List Doc) (pf : List String) (fld nm : String) (hpf : pf.contains fld = true) :
    popTasks [(fld, PopRule.action nm)] resolver docs pf
      = if (collectIds docs fld).length > 0
        then [PopTask.remote fld (resolver nm (collectIds docs fld))
                ⟨nm, fld, collectIds docs fld⟩]
        else [] := by
  unfold popTasks
  have hm : fld ∈ pf := List.mem_of_elem_eq_true hpf
  by_cases hl : (collectIds docs fld).length > 0
  · simp [List.filterMap_cons, hm, hl]
  · simp [List.filterMap_cons, hm, hl]

theorem popCalls_field_mem (pops : List (String × PopRule))
    (resolver : String → List JVal → List (JVal × Doc)) (docs : List Doc)
    (pf : List String) (c : PopCall)
    (hc : c ∈ (popTasks pops resolver docs pf).filterMap
        (fun t => match t with | .remote _ _ c => some c | _ => none)) :
    c.field ∈ pops.map Prod.fst := by
  obtain ⟨t, ht, hct⟩ := List.mem_filterMap.mp hc
  obtain ⟨fr, hfr, _, hcase⟩ := popTasks_mem_char pops resolver docs pf t ht
  rcases hcase with ⟨nm', _, _, rfl⟩ | ⟨_, rfl⟩
  · simp only [Option.some.injEq] at hct
    subst hct
    exact List.mem_map_of_mem _ hfr
  · simp at hct

theorem populateDocs_field_char (pops : List (String × PopRule))
    (resolver : String → List JVal → List (JVal × Doc))
    (hsem : String → List JVal → List Doc → List Doc)
    (docs : List Doc) (pf : List String) (fld nm : String)
    (hmem : (fld, PopRule.action nm) ∈ pops) (hpf : fld ∈ pf)
    (hnd : (pops.map Prod.fst).Nodup)
    (hall : ∀ p ∈ pops, isActionRule p.2 = true) :
    ((populateDocs pops resolver hsem docs pf).2.filter (fun c => c.field == fld)
        = if (collectIds docs fld).length > 0
          then [⟨nm, fld, collectIds docs fld⟩] else []) ∧
    ((populateDocs pops resolver hsem docs pf).1.map (fun d => getField d fld)
        = if (collectIds docs fld).length > 0
          then docs.map (fun d =>
            popFieldValue (resolver nm (collectIds docs fld)) (getField d fld))
          else docs.map (fun d => getField d fld)) := by
  obtain ⟨p1, p2, rfl⟩ := List.append_of_mem hmem
  have hnd' : (p1.map Prod.fst ++ fld :: p2.map Prod.fst).Nodup := by simpa using hnd
  rw [List.nodup_append] at hnd'
  have h1 : fld ∉ p1.map Prod.fst := fun hin => (hnd'.2.2 hin) (List.mem_cons_self _ _)
  have h2 : fld ∉ p2.map Prod.fst := by
    have := hnd'.2.1
    rw [List.nodup_cons] at this
    exact this.1
  have hguard : ((p1 ++ (fld, PopRule.action nm) :: p2).isEmpty || pf.isEmpty) = false := by
    cases p1 <;> cases pf <;> simp_all
  have hsingle := popTasks_single_action resolver docs pf fld nm (List.elem_eq_true_of_mem hpf)
  have htasks : popTasks (p1 ++ (fld, PopRule.action nm) :: p2) resolver docs pf
      = popTasks p1 resolver docs pf
        ++ (popTasks [(fld, PopRule.action nm)] resolver docs pf
          ++ popTasks p2 resolver docs pf) := by
    unfold popTasks
    rw [show p1 ++ (fld, PopRule.action nm) :: p2
        = p1 ++ ([(fld, PopRule.action nm)] ++ p2) by simp]
    rw [List.filterMap_append, List.filterMap_append]
  have hno1 : ∀ t ∈ popTasks p1 resolver docs pf, taskField t ≠ fld := by
    intro t ht he
    exact h1 (he ▸ popTasks_field_mem p1 resolver docs pf t ht)
  have hno2 : ∀ t ∈ popTasks p2 resolver docs pf, taskField t ≠ fld := by
    intro t ht he
    exact h2 (he ▸ popTasks_field_mem p2 resolver docs pf t ht)
  have hrem : ∀ t ∈ popTasks p1 resolver docs pf
      ++ (popTasks [(fld, PopRule.action nm)] resolver docs pf
        ++ popTasks p2 resolver docs pf), ∃ f m c, t = PopTask.remote f m c := by
    rw [← htasks]
    exact popTasks_all_remote _ resolver docs pf hall
  unfold populateDocs
  simp only [hguard, Bool.false_eq_true, if_false, htasks]
  constructor
  · rw [List.filterMap_append, List.filterMap_append, List.filter_append, List.filter_append]
    have hc1 : ((popTasks p1 resolver docs pf).filterMap
        (fun t => match t with | .remote _ _ c => some c | _ => none)).filter
          (fun c => c.field == fld) = [] := by
      rw [List.filter_eq_nil_iff]
      intro c hcmem he
      rw [beq_iff_eq] at he
      exact h1 (he ▸ popCalls_field_mem p1 resolver docs pf c hcmem)
    have hc2 : ((popTasks p2 resolver docs pf).filterMap
        (fun t => match t with | .remote _ _ c => some c | _ => none)).filter
          (fun c => c.field == fld) = [] := by
      rw [List.filter_eq_nil_iff]
      intro c hcmem he
      rw [beq_iff_eq] at he
      exact h2 (he ▸ popCalls_field_mem p2 resolver docs pf c hcmem)
    rw [hc1, hc2, hsingle]
    by_cases hl : (collectIds docs fld).length > 0
    · simp [hl]
    · simp [hl]
  · rw [popFold_map hsem _ hrem, List.map_map]
    by_cases hl : (collectIds docs fld).length > 0
    · rw [if_pos hl]
      apply List.map_congr_left
      intro d hd
      simp only [Function.comp, List.foldl_append]
      rw [popApplyAll_other _ fld hno2, hsingle, if_pos hl]
      simp only [List.foldl_cons, List.foldl_nil]
      have happ : applyTask (PopTask.remote fld (resolver nm (collectIds docs fld))
          ⟨nm, fld, collectIds docs fld⟩)
            ((popTasks p1 resolver docs pf).foldl (fun x t => applyTask t x) d)
          = popTransform fld (resolver nm (collectIds docs fld))
            ((popTasks p1 resolver docs pf).foldl (fun x t => applyTask t x) d) := rfl
      rw [happ, getField_popTransform_self, popApplyAll_other _ fld hno1]
    · rw [if_neg hl]
      apply List.map_congr_left
      intro d hd
      simp only [Function.comp, List.foldl_append]
      rw [popApplyAll_other _ fld hno2, hsingle, if_neg hl]
      simp only [List.foldl_nil]
      rw [popApplyAll_other _ fld hno1]

@[simp] theorem falsy_obj (o : Doc) : falsy (.obj o) = false := rfl

@[simp] theorem falsy_arr (xs : List JVal) : falsy (.arr xs) = false := rfl

@[simp] theorem falsy_null : falsy .null = true := rfl

theorem compactJ_lookup (m : List (JVal × Doc)) (l : List JVal) :
    compactJ (l.map (fun i => match lookupJ m i with
      | some ent => JVal.obj ent
      | none => JVal.undefined))
      = l.filterMap (fun i => (lookupJ m i).map JVal.obj) := by
  induction l with
  | nil => rfl
  | cons i l ih =>
    simp only [List.map_cons, List.filterMap_cons, compactJ, List.filter_cons] at *
    cases hlk : lookupJ m i <;> simp [hlk, ih]

/-- Claim C1 (amended): for every population request and every relation
rule in the (distinct-keyed) rule map that is a remote-operation reference,
when every requested rule is a remote reference: at most one resolution
call is issued for that relation; when the collected ID list is non-empty,
exactly one call is issued carrying that list — the deduplicated deep
flattening of the relation-field values with top-level falsy values removed
BEFORE flattening (so a null nested inside an array-valued relation may
appear in it, unlike the frozen claim's null-free list); the list is
duplicate-free; after resolution every document's relation field holds the
resolved value: for a scalar ID the single resolved entity (identical for
every document carrying that ID), for an ID list the resolved entities
with unmatched IDs dropped. -/
theorem spec2proof_c1 (pops : List (String × PopRule))
    (resolver : String → List JVal → List (JVal × Doc))
    (hsem : String → List JVal → List Doc → List Doc)
    (docs : List Doc) (pf : List String) (fld nm : String)
    (hmem : (fld, PopRule.action nm) ∈ pops) (hpf : fld ∈ pf)
    (hnd : (pops.map Prod.fst).Nodup)
    (hall : ∀ p ∈ pops, isActionRule p.2 = true) :
    (((populateDocs pops resolver hsem docs pf).2.filter
        (fun c => c.field == fld)).length ≤ 1) ∧
    (collectIds docs fld ≠ [] →
      (populateDocs pops resolver hsem docs pf).2.filter (fun c => c.field == fld)
        = [⟨nm, fld, collectIds docs fld⟩]) ∧
    (List.Pairwise (fun a b => JVal.beq a b = false) (collectIds docs fld)) ∧
    (collectIds docs fld ≠ [] →
      (populateDocs pops resolver hsem docs pf).1.map (fun d => getField d fld)
        = docs.map (fun d =>
            popFieldValue (resolver nm (collectIds docs fld)) (getField d fld))) ∧
    (∀ (m : List (JVal × Doc)) (v : JVal) (e : Doc), isArrJ v = false →
      lookupJ m v = some e → popFieldValue m v = .obj e) ∧
    (∀ (m : List (JVal × Doc)) (l : List JVal), popFieldValue m (.arr l)
        = .arr (l.filterMap (fun i => (lookupJ m i).map JVal.obj))) := by
  have hchar := populateDocs_field_char pops resolver hsem docs pf fld nm hmem hpf hnd hall
  refine ⟨?_, ?_, collectIds_pairwise docs fld, ?_, ?_, ?_⟩
  · rw [hchar.1]
    split <;> simp
  · intro hne
    rw [hchar.1, if_pos (by simpa [List.length_pos] using hne)]
  · intro hne
    rw [hchar.2, if_pos (by simpa [List.length_pos] using hne)]
  · intro m v e hv hlk
    cases v <;> simp_all [popFieldValue, isArrJ]
  · intro m l
    simp only [popFieldValue]
    rw [compactJ_lookup]

theorem spec2proof_c1_witness :
    (("owner", PopRule.action "users.get") ∈ [("owner", PopRule.action "users.get")]) ∧
    ((populateDocs [("owner", PopRule.action "users.get")]
        (fun _ _ => [(JVal.str "42", [("_id", JVal.str "42")])]) (fun _ _ ds => ds)
        [[("owner", JVal.str "42")], [("owner", JVal.str "42"), ("x", JVal.num 1)]]
        ["owner"]).2.filter (fun c => c.field == "owner")
      = [⟨"users.get", "owner", [JVal.str "42"]⟩]) ∧
    ((populateDocs [("owner", PopRule.action "users.get")]
        (fun _ _ => [(JVal.str "42", [("_id", JVal.str "42")])]) (fun _ _ ds => ds)
        [[("owner", JVal.str "42")], [("owner", JVal.str "42"), ("x", JVal.num 1)]]
        ["owner"]).1.map (fun d => getField d "owner")
      = [JVal.obj [("_id", JVal.str "42")], JVal.obj [("_id", JVal.str "42")]]) := by
  have h := spec2proof_c1 [("owner", PopRule.action "users.get")]
    (fun _ _ => [(JVal.str "42", [("_id", JVal.str "42")])]) (fun _ _ ds => ds)
    [[("owner", JVal.str "42")], [("owner", JVal.str "42"), ("x", JVal.num 1)]]
    ["owner"] "owner" "users.get" (by decide) (by decide) (by decide) (by decide)
  exact ⟨by decide, (h.2.1 (List.cons_ne_nil _ _)).trans rfl,
    (h.2.2.2.1 (List.cons_ne_nil _ _)).trans rfl⟩

/-- Claim C1 as frozen is false on the code: nulls are removed only at the
top level BEFORE deep-flattening (`_.compact` before `_.flattenDeep`), so a
document whose relation field is the array `[null, "42"]` produces the id
parameter `[null, "42"]` — not a null-free list. -/
theorem spec2proof_c1_cex :
    ((populateDocs [("owner", PopRule.action "users.get")]
        (fun _ _ => [(JVal.str "42", [("_id", JVal.str "42")])]) (fun _ _ ds => ds)
        [[("owner", JVal.arr [JVal.null, JVal.str "42"])]] ["owner"]).2.map (fun c => c.ids)
      = [[JVal.null, JVal.str "42"]]) ∧
    JVal.null ∈ [JVal.null, JVal.str "42"] := ⟨rfl, List.mem_cons_self _ _⟩

/-- Claim C7 (amended): for a remote-reference relation rule in a
distinct-keyed, all-remote rule map, when the ID list as the code collects
it (top-level falsy relation values removed, then deep-flattened and
deduplicated) is empty, no resolution call is issued for that relation and
the relation field of every document is left untouched.  (A null nested
inside an array-valued relation survives collection and does trigger a
call, unlike the frozen claim's flatten-then-remove-nulls reading.) -/
theorem spec2proof_c7 (pops : List (String × PopRule))
    (resolver : String → List JVal → List (JVal × Doc))
    (hsem : String → List JVal → List Doc → List Doc)
    (docs : List Doc) (pf : List String) (fld nm : String)
    (hmem : (fld, PopRule.action nm) ∈ pops) (hpf : fld ∈ pf)
    (hnd : (pops.map Prod.fst).Nodup)
    (hall : ∀ p ∈ pops, isActionRule p.2 = true)
    (hids : collectIds docs fld = []) :
    ((populateDocs pops resolver hsem docs pf).2.filter (fun c => c.field == fld) = []) ∧
    ((populateDocs pops resolver hsem docs pf).1.map (fun d => getField d fld)
        = docs.map (fun d => getField d fld)) := by
  have h := populateDocs_field_char pops resolver hsem docs pf fld nm hmem hpf hnd hall
  rw [hids] at h
  simpa using h

theorem spec2proof_c7_witness :
    (("owner", PopRule.action "users.get") ∈ [("owner", PopRule.action "users.get")]) ∧
    collectIds [[("owner", JVal.null)]] "owner" = [] ∧
    ((populateDocs [("owner", PopRule.action "users.get")] (fun _ _ => [])
        (fun _ _ ds => ds) [[("owner", JVal.null)]] ["owner"]).2.filter
          (fun c => c.field == "owner") = []) ∧
    ((populateDocs [("owner", PopRule.action "users.get")] (fun _ _ => [])
        (fun _ _ ds => ds) [[("owner", JVal.null)]] ["owner"]).1.map
          (fun d => getField d "owner") = [JVal.null]) := by
  have h := spec2proof_c7 [("owner", PopRule.action "users.get")] (fun _ _ => [])
    (fun _ _ ds => ds) [[("owner", JVal.null)]] ["owner"] "owner" "users.get"
    (by decide) (by decide) (by decide) (by decide) rfl
  exact ⟨by decide, rfl, h.1, h.2.trans rfl⟩

/-- Claim C7 as frozen is false on the code: the document
`{owner: [null]}` has an empty flatten-then-remove-nulls ID list, yet a
resolution call with id list `[null]` is issued (nulls are compacted before
flattening, not after) and the relation field is rewritten from `[null]` to
`[]`. -/
theorem spec2proof_c7_cex :
    compactJ (flattenDeep [JVal.arr [JVal.null]]) = [] ∧
    ((populateDocs [("owner", PopRule.action "users.get")] (fun _ _ => [])
        (fun _ _ ds => ds) [[("owner", JVal.arr [JVal.null])]] ["owner"]).2.map
          (fun c => c.ids) = [[JVal.null]]) ∧
    ((populateDocs [("owner", PopRule.action "users.get")] (fun _ _ => [])
        (fun _ _ ds => ds) [[("owner", JVal.arr [JVal.null])]] ["owner"]).1
      = [[("owner", JVal.arr [])]]) := ⟨rfl, rfl, rfl⟩

/-- Claim C4: whether the id is a scalar or a list, whenever the adapter
resolution hands back nothing (a falsy value: a scalar lookup misses, or
the adapter yields null), `_get` — and hence the `get` action — fails with
EntityNotFound carrying the requested id(s); in particular a scalar lookup
on a collection without the record fails that way. -/
theorem spec2proof_c4 (s : Settings) (env : Env) (store : Store) (id : JVal)
    (hscalar : isArrJ id = false)
    (hnone : adapterFindById s.idField store (decodeID id) = none) :
    (getAction s env store [("id", id)] = .error (.entityNotFound id)) ∧
    (∀ params : Doc, falsy (getById s store (getField params "id")) = true →
      getMethod s env store params = .error (.entityNotFound (getField params "id"))) := by
  constructor
  · have hid : getField [("id", id)] "id" = id := by simp [getField]
    unfold getAction getMethod getById
    simp only [hid, hscalar, Bool.false_eq_true, if_false, hnone, falsy_undef, if_true, reduceIte]
  · intro params hf
    unfold getMethod
    simp only [hf, if_true, reduceIte]

theorem spec2proof_c4_witness :
    isArrJ (JVal.str "missing") = false ∧
    adapterFindById "_id" [] (decodeID (JVal.str "missing")) = none ∧
    getAction {} {} [] [("id", JVal.str "missing")]
      = .error (.entityNotFound (JVal.str "missing")) := by
  have h := spec2proof_c4 {} {} [] (JVal.str "missing") rfl rfl
  exact ⟨rfl, rfl, h.1⟩

theorem ceil_formula (t ps : Int) (hps : 0 < ps) :
    (t + ps - 1).fdiv ps = ⌈(t : ℚ) / (ps : ℚ)⌉ := by
  have hid := Int.fdiv_add_fmod (t + ps - 1) ps
  have hr0 : 0 ≤ (t + ps - 1).fmod ps := Int.fmod_nonneg' (t + ps - 1) hps
  have hrlt : (t + ps - 1).fmod ps < ps := Int.fmod_lt_of_pos (t + ps - 1) hps
  have h1 : t ≤ ps * ((t + ps - 1).fdiv ps) := by linarith
  have h2 : ps * ((t + ps - 1).fdiv ps) - ps < t := by linarith
  have h1Q : (t : ℚ) ≤ (ps : ℚ) * ((t + ps - 1).fdiv ps : ℚ) := by exact_mod_cast h1
  have h2Q : (ps : ℚ) * ((t + ps - 1).fdiv ps : ℚ) - (ps : ℚ) < (t : ℚ) := by exact_mod_cast h2
  have hpsQ : (0 : ℚ) < (ps : ℚ) := by exact_mod_cast hps
  symm
  rw [Int.ceil_eq_iff]
  constructor
  · rw [lt_div_iff₀ hpsQ]
    linarith
  · rw [div_le_iff₀ hpsQ]
    linarith

theorem jsTotalPages_num (t ps : Int) (h : ps ≠ 0) :
    jsTotalPages t (.num ps) = .num ((t + ps - 1).fdiv ps) := by
  show (if ps = 0 then JVal.nan else JVal.num ((t + ps - 1).fdiv ps))
      = JVal.num ((t + ps - 1).fdiv ps)
  exact if_neg h

/-- Claim C6: `_list` evaluates the paged row fetch and the unpaged count
(truthy `limit`/`offset` nulled out for the count) independently and
assembles `{rows, total, page, pageSize, totalPages}` with `total` the full
matching count, `totalPages = ceil(total / pageSize)`, and exactly
`min(limit, total - offset)` rows. -/
theorem spec2proof_c6 (s : Settings) (env : Env) (store : Store) (p : RawParams)
    (ps l off : Int)
    (hps : p.pageSize = .num ps) (hps0 : 0 < ps)
    (hl : p.limit = .num l) (hl0 : l ≠ 0)
    (hoff : p.offset = .num off)
    (hq : p.query = .undefined) (hpop : p.populate = .undefined) :
    ((listMethod s env store p).1.total = (store.length : Int)) ∧
    ((listMethod s env store p).1.page = p.page) ∧
    ((listMethod s env store p).1.pageSize = p.pageSize) ∧
    ((listMethod s env store p).1.totalPages = .num ⌈(store.length : ℚ) / (ps : ℚ)⌉) ∧
    ((rowsList (listMethod s env store p).1.rows).length
        = min l.toNat (store.length - off.toNat)) := by
  have hfl : falsy p.limit = false := by
    rw [hl]
    simp
    omega
  have htot : adapterCount store (queryOf p) JVal.null
      (if !falsy p.offset then JVal.null else p.offset) = (store.length : Int) := by
    unfold adapterCount adapterFind queryOf
    rw [hq]
    by_cases hfo : falsy p.offset = true
    · rw [hoff] at hfo ⊢
      simp only [falsy_num, beq_iff_eq] at hfo
      simp [hfo]
    · simp [hfo]
  refine ⟨?_, rfl, rfl, ?_, ?_⟩
  · unfold listMethod
    simp only [hfl, Bool.not_false, if_true, reduceIte]
    exact htot
  · unfold listMethod
    simp only [hfl, Bool.not_false, if_true, reduceIte, hps]
    rw [htot, jsTotalPages_num _ _ (by omega), ceil_formula (store.length : Int) ps hps0]
    norm_cast
  · unfold listMethod
    simp only []
    unfold transformDocuments transformCollection
    simp only [hpop, tparamsOfRaw]
    unfold rowsList
    simp only [List.length_map]
    unfold adapterFind queryOf
    rw [hq, hl, hoff]
    simp [List.length_take, List.length_drop]

theorem spec2proof_c6_witness :
    ((0 : Int) < 10 ∧ (10 : Int) ≠ 0) ∧
    ((listMethod {} {} ((List.range 25).map (fun i => [("_id", JVal.num i)]))
        { page := .num 1, pageSize := .num 10, limit := .num 10, offset := .num 0 }).1.total
      = (25 : Int)) ∧
    ((listMethod {} {} ((List.range 25).map (fun i => [("_id", JVal.num i)]))
        { page := .num 1, pageSize := .num 10, limit := .num 10, offset := .num 0 }).1.totalPages
      = .num 3) ∧
    ((rowsList (listMethod {} {} ((List.range 25).map (fun i => [("_id", JVal.num i)]))
        { page := .num 1, pageSize := .num 10, limit := .num 10, offset := .num 0 }).1.rows).length
      = 10) := by
  have h := spec2proof_c6 {} {} ((List.range 25).map (fun i => [("_id", JVal.num i)]))
    { page := .num 1, pageSize := .num 10, limit := .num 10, offset := .num 0 }
    10 10 0 rfl (by decide) rfl (by decide) rfl rfl rfl
  refine ⟨⟨by decide, by decide⟩, ?_, ?_, ?_⟩
  · rw [h.1]
    decide
  · rw [h.2.2.2.1]
    congr 1
    have hlenN : ((List.range 25).map (fun i => [("_id", JVal.num i)])).length = 25 := by decide
    rw [hlenN, show ((25 : Nat) : ℚ) = 25 by norm_num,
      show ((10 : Int) : ℚ) = 10 by norm_num, show (25 / 10 : ℚ) = 5 / 2 by norm_num,
      Int.ceil_eq_iff]
    constructor <;> norm_num
  · rw [h.2.2.2.2]
    decide

theorem transformDocuments_one_default (s : Settings) (hf : s.fields = none)
    (resolver : String → List JVal → List (JVal × Doc))
    (hsem : String → List JVal → List Doc → List Doc) (doc : Doc) :
    (transformDocuments s resolver hsem {} (.one doc)).1 = .one (transformDoc s doc) := by
  unfold transformDocuments transformCollection
  simp [hf, authorizeFields, filterFields]

theorem getMethod_found (s : Settings) (hf : s.fields = none) (env : Env) (store : Store)
    (id : JVal) (doc : Doc) (hid : isArrJ id = false)
    (hfind : adapterFindById s.idField store (decodeID id) = some doc) :
    getMethod s env store [("id", id)] = .ok (.one (transformDoc s doc)) := by
  unfold getMethod getById
  simp only [show getField [("id", id)] "id" = id from rfl, hid, Bool.false_eq_true,
    if_false, hfind, falsy_obj, reduceIte]
  rw [show tparamsOf [("id", id)] = {} from rfl]
  rw [transformDocuments_one_default s hf env.resolver env.hsem doc]

theorem isDeletedOf_transformDoc (s : Settings) (d : Doc) :
    isDeletedOf (.one (transformDoc s d)) = getField d "isDeleted" := by
  show getField (transformDoc s d) "isDeleted" = getField d "isDeleted"
  exact getField_transformDoc s d "isDeleted"

theorem eq_of_beq_str (v : JVal) (t : String) (h : JVal.beq v (.str t) = true) : v = .str t := by
  cases v <;> simp_all [JVal.beq]

theorem findById_map_replace (idField : String) (id : JVal) (d2 : Doc)
    (hd2 : JVal.beq (getField d2 idField) id = true) :
    ∀ store : Store, (∃ doc, adapterFindById idField store id = some doc) →
      adapterFindById idField
        (store.map (fun e => if JVal.beq (getField e idField) id then d2 else e)) id
      = some d2 := by
  intro store
  induction store with
  | nil =>
    intro hex
    obtain ⟨doc, hdoc⟩ := hex
    simp [adapterFindById] at hdoc
  | cons e rest ih =>
    intro hex
    obtain ⟨doc, hdoc⟩ := hex
    simp only [List.map_cons]
    by_cases hc : JVal.beq (getField e idField) id = true
    · unfold adapterFindById
      rw [if_pos hc,
        List.find?_cons_of_pos (p := fun d => JVal.beq (getField d idField) id) _ hd2]
    · unfold adapterFindById at hdoc ⊢
      rw [List.find?_cons_of_neg (p := fun d => JVal.beq (getField d idField) id) _
        (by simp [hc])] at hdoc
      rw [if_neg (by simp [hc]),
        List.find?_cons_of_neg (p := fun d => JVal.beq (getField d idField) id) _ (by simp [hc])]
      exact ih ⟨doc, hdoc⟩

theorem updateMethod_softRemove (env : Env) (store : Store) (id : JVal) (doc : Doc)
    (hfind : adapterFindById "_id" store id = some doc) :
    updateMethod { softDelete := true } env store [("id", id), ("isDeleted", JVal.num env.now)]
      = .ok (.one (transformDoc { softDelete := true } (setField doc "isDeleted" (.num env.now))),
          store.map (fun e => if JVal.beq (getField e "_id") id
            then setField doc "isDeleted" (.num env.now) else e),
          entityChanged env "updated" (.one (transformDoc { softDelete := true }
            (setField doc "isDeleted" (.num env.now))))) := by
  unfold updateMethod
  rw [show ([("id", id), ("isDeleted", JVal.num env.now)] : Doc).foldl
      (fun acc kv => if kv.1 == "id" || kv.1 == ({ softDelete := true } : Settings).idField
        then decodeID kv.2 else acc) JVal.undefined = id from rfl]
  rw [show ([("id", id), ("isDeleted", JVal.num env.now)] : Doc).filter
      (fun kv => !(kv.1 == "id") && !(kv.1 == ({ softDelete := true } : Settings).idField))
      = [("isDeleted", JVal.num env.now)] from rfl]
  unfold adapterUpdateById
  simp only []
  rw [hfind]
  simp only [List.foldl_cons, List.foldl_nil]
  rw [show tparamsOf [("id", id), ("isDeleted", JVal.num env.now)] = {} from rfl]
  rw [transformDocuments_one_default { softDelete := true } rfl env.resolver env.hsem]

theorem softRemove_char (env : Env) (store : Store) (id : JVal) (doc : Doc)
    (hid : isArrJ id = false)
    (hfind : adapterFindById "_id" store id = some doc)
    (hnd : getField doc "isDeleted" = .str "-1") :
    removeAction { softDelete := true } env store [("id", id)]
      = .ok (.one (transformDoc { softDelete := true } (setField doc "isDeleted" (.num env.now))),
          store.map (fun e => if JVal.beq (getField e "_id") id
            then setField doc "isDeleted" (.num env.now) else e),
          entityChanged env "updated" (.one (transformDoc { softDelete := true }
            (setField doc "isDeleted" (.num env.now))))) := by
  unfold removeAction
  rw [show (!({ softDelete := true } : Settings).softDelete) = false from rfl]
  simp only [Bool.false_eq_true, if_false, reduceIte]
  rw [getMethod_found { softDelete := true } rfl env store id doc hid hfind]
  simp only []
  rw [isDeletedOf_transformDoc, hnd]
  rw [show (!(JVal.beq (.str "-1") (.str "-1"))) = false from rfl]
  simp only [Bool.false_eq_true, if_false, reduceIte]
  rw [show setField [("id", id)] "isDeleted" (JVal.num env.now)
      = [("id", id), ("isDeleted", JVal.num env.now)] from rfl]
  exact updateMethod_softRemove env store id doc hfind

theorem sanitizeParams_query (s : Settings) (isList : Bool) (p : RawParams) :
    (sanitizeParams s isList p).query = p.query := by
  unfold sanitizeParams
  cases isList <;> simp only [Bool.false_eq_true, if_false, if_true, reduceIte] <;>
    split_ifs <;> rfl

theorem sanitizeParams_ignore (s : Settings) (isList : Bool) (p : RawParams) :
    (sanitizeParams s isList p).ignoreSoftDelete = p.ignoreSoftDelete := by
  unfold sanitizeParams
  cases isList <;> simp only [Bool.false_eq_true, if_false, if_true, reduceIte] <;>
    split_ifs <;> rfl

theorem sanitizeParams_fields (s : Settings) (isList : Bool) (p : RawParams) :
    (sanitizeParams s isList p).fields = coerceWords p.fields := by
  unfold sanitizeParams
  cases isList <;> simp only [Bool.false_eq_true, if_false, if_true, reduceIte] <;>
    split_ifs <;> rfl

theorem sanitizeParams_populate (s : Settings) (isList : Bool) (p : RawParams) :
    (sanitizeParams s isList p).populate = coerceWords p.populate := by
  unfold sanitizeParams
  cases isList <;> simp only [Bool.false_eq_true, if_false, if_true, reduceIte] <;>
    split_ifs <;> rfl

theorem adapterFind_subset (store : Store) (qd : Doc) (lim off : JVal) :
    ∀ x ∈ adapterFind store (some qd) lim off, x ∈ store.filter (matchesQuery qd) := by
  intro x hx
  unfold adapterFind at hx
  simp only [] at hx
  rcases lim with _|_|_|l|_|_|_|_ <;> rcases off with _|_|_|o|_|_|_|_ <;>
    simp only [] at hx <;>
    first
      | exact hx
      | exact List.drop_subset _ _ hx
      | exact List.take_subset _ _ hx
      | exact List.drop_subset _ _ (List.take_subset _ _ hx)

theorem transformDocuments_many_default (s : Settings) (hf : s.fields = none)
    (resolver : String → List JVal → List (JVal × Doc))
    (hsem : String → List JVal → List Doc → List Doc) (ds : List Doc) :
    (transformDocuments s resolver hsem {} (.many ds)).1 = .many (ds.map (transformDoc s)) := by
  unfold transformDocuments transformCollection
  simp [hf, authorizeFields, filterFields]

theorem listRows_marked (env : Env) (store : Store) (p : RawParams)
    (hq : p.query = .undefined) (hpop : p.populate = .undefined)
    (hfld : p.fields = .undefined) (hisd : p.ignoreSoftDelete = .undefined) :
    ∀ dr ∈ rowsList (listAction { softDelete := true } env store p).1.rows,
      getField dr "isDeleted" = .str "-1" := by
  have hig : (sanitizeParams { softDelete := true } true p).ignoreSoftDelete = .undefined := by
    rw [sanitizeParams_ignore, hisd]
  have hqq : (sanitizeParams { softDelete := true } true p).query = .undefined := by
    rw [sanitizeParams_query, hq]
  have hqf : (sanitizeParams { softDelete := true } true p).fields = .undefined := by
    rw [sanitizeParams_fields, hfld]
    rfl
  have hqp : (sanitizeParams { softDelete := true } true p).populate = .undefined := by
    rw [sanitizeParams_populate, hpop]
    rfl
  have hstep : listAction { softDelete := true } env store p
      = listMethod { softDelete := true } env store
        { sanitizeParams { softDelete := true } true p with
          query := JVal.obj [("isDeleted", JVal.str "-1")] } := by
    unfold listAction
    simp only []
    rw [if_pos (by rw [hig]; rfl)]
    rw [hqq]
    rfl
  intro dr hdr
  rw [hstep] at hdr
  unfold listMethod at hdr
  simp only [] at hdr
  rw [show tparamsOfRaw { sanitizeParams { softDelete := true } true p with
      query := JVal.obj [("isDeleted", JVal.str "-1")] }
      = ({} : TParams) from by
    unfold tparamsOfRaw
    rw [hqf, hqp]] at hdr
  rw [transformDocuments_many_default { softDelete := true } rfl env.resolver env.hsem] at hdr
  simp only [rowsList] at hdr
  obtain ⟨r, hrmem, rfl⟩ := List.mem_map.mp hdr
  rw [getField_transformDoc]
  have hsub := adapterFind_subset store [("isDeleted", JVal.str "-1")] _ _ r
    (by simpa [queryOf] using hrmem)
  rw [List.mem_filter] at hsub
  have hmq := hsub.2
  simp only [matchesQuery, List.all_cons, List.all_nil, Bool.and_true] at hmq
  exact eq_of_beq_str _ _ hmq

/-- Claim C5: under soft-delete mode, `get`, `update` and `remove` load the
record first and fail with EntityLogicallyNotFound when its deletion marker
holds anything other than the `"-1"` sentinel; `remove` of an existing
non-deleted record is an update that stamps the marker with the current
time and keeps the underlying record in the store, after which `get`
fails with EntityLogicallyNotFound; and `list` without an explicit opt-out
returns only rows whose marker is the not-deleted sentinel, excluding every
logically deleted record. -/
theorem spec2proof_c5 (env : Env) (store : Store) (id : JVal) (doc : Doc)
    (hid : isArrJ id = false)
    (hfind : adapterFindById "_id" store id = some doc) :
    (JVal.beq (getField doc "isDeleted") (.str "-1") = false →
      (getAction { softDelete := true } env store [("id", id)]
          = .error (.entityLogicallyNotFound id)) ∧
      (updateAction { softDelete := true } env store [("id", id)]
          = .error (.entityLogicallyNotFound id)) ∧
      (removeAction { softDelete := true } env store [("id", id)]
          = .error (.entityLogicallyNotFound id))) ∧
    (getField doc "isDeleted" = .str "-1" →
      (removeAction { softDelete := true } env store [("id", id)]
        = .ok (.one (transformDoc { softDelete := true } (setField doc "isDeleted" (.num env.now))),
            store.map (fun e => if JVal.beq (getField e "_id") id
              then setField doc "isDeleted" (.num env.now) else e),
            entityChanged env "updated" (.one (transformDoc { softDelete := true }
              (setField doc "isDeleted" (.num env.now)))))) ∧
      (adapterFindById "_id" (store.map (fun e => if JVal.beq (getField e "_id") id
          then setField doc "isDeleted" (.num env.now) else e)) id
        = some (setField doc "isDeleted" (.num env.now))) ∧
      ((store.map (fun e => if JVal.beq (getField e "_id") id
          then setField doc "isDeleted" (.num env.now) else e)).length = store.length) ∧
      (getAction { softDelete := true } env
          (store.map (fun e => if JVal.beq (getField e "_id") id
            then setField doc "isDeleted" (.num env.now) else e)) [("id", id)]
        = .error (.entityLogicallyNotFound id))) ∧
    (∀ (store0 : Store) (p : RawParams), p.query = .undefined → p.populate = .undefined →
      p.fields = .undefined → p.ignoreSoftDelete = .undefined →
      ∀ dr ∈ rowsList (listAction { softDelete := true } env store0 p).1.rows,
        getField dr "isDeleted" = .str "-1") := by
  have hget := getMethod_found { softDelete := true } rfl env store id doc hid hfind
  refine ⟨?_, ?_, fun store0 p hq hpop hfld hisd => listRows_marked env store0 p hq hpop hfld hisd⟩
  · intro hm
    refine ⟨?_, ?_, ?_⟩
    · unfold getAction
      rw [hget]
      simp only [isDeletedOf_transformDoc, hm]
      rfl
    · unfold updateAction
      rw [hget]
      simp only [isDeletedOf_transformDoc, hm]
      rfl
    · unfold removeAction
      rw [show (!({ softDelete := true } : Settings).softDelete) = false from rfl]
      simp only [Bool.false_eq_true, if_false, reduceIte]
      rw [hget]
      simp only [isDeletedOf_transformDoc, hm]
      rfl
  · intro hnd
    have hp : JVal.beq (getField doc "_id") id = true := by
      have hfq : List.find? (fun d => JVal.beq (getField d "_id") id) store = some doc := hfind
      exact List.find?_some (a := doc) hfq
    have hd2 : JVal.beq (getField (setField doc "isDeleted" (.num env.now)) "_id") id = true := by
      rw [getField_setField_ne doc "isDeleted" _ "_id" (by decide)]
      exact hp
    have hfind2 := findById_map_replace "_id" id (setField doc "isDeleted" (.num env.now)) hd2
      store ⟨doc, hfind⟩
    refine ⟨softRemove_char env store id doc hid hfind hnd, hfind2, List.length_map _ _, ?_⟩
    unfold getAction
    rw [getMethod_found { softDelete := true } rfl env _ id _ hid hfind2]
    simp only [isDeletedOf_transformDoc]
    rw [getField_setField_self]
    rfl

theorem spec2proof_c5_witness :
    (isArrJ (JVal.num 1) = false ∧
      adapterFindById "_id" [[("_id", JVal.num 1), ("isDeleted", JVal.str "-1")]] (JVal.num 1)
        = some [("_id", JVal.num 1), ("isDeleted", JVal.str "-1")]) ∧
    (removeAction { softDelete := true } { hooks := ["entityUpdated", "entityRemoved"], now := 99 }
        [[("_id", JVal.num 1), ("isDeleted", JVal.str "-1")]] [("id", JVal.num 1)]
      = .ok (.one [("_id", JVal.num 1), ("isDeleted", JVal.num 99)],
          [[("_id", JVal.num 1), ("isDeleted", JVal.num 99)]],
          [Event.broadcastCacheClean, Event.cacherClean,
            Event.hook "entityUpdated" (.one [("_id", JVal.num 1), ("isDeleted", JVal.num 99)])])) ∧
    (getAction { softDelete := true } { hooks := ["entityUpdated", "entityRemoved"], now := 99 }
        [[("_id", JVal.num 1), ("isDeleted", JVal.num 99)]] [("id", JVal.num 1)]
      = .error (.entityLogicallyNotFound (JVal.num 1))) ∧
    (getAction { softDelete := true } { hooks := ["entityUpdated", "entityRemoved"], now := 99 }
        [[("_id", JVal.num 2), ("isDeleted", JVal.num 5)]] [("id", JVal.num 2)]
      = .error (.entityLogicallyNotFound (JVal.num 2))) := by
  have h := spec2proof_c5 { hooks := ["entityUpdated", "entityRemoved"], now := 99 }
    [[("_id", JVal.num 1), ("isDeleted", JVal.str "-1")]] (JVal.num 1)
    [("_id", JVal.num 1), ("isDeleted", JVal.str "-1")] rfl rfl
  have h2 := spec2proof_c5 { hooks := ["entityUpdated", "entityRemoved"], now := 99 }
    [[("_id", JVal.num 2), ("isDeleted", JVal.num 5)]] (JVal.num 2)
    [("_id", JVal.num 2), ("isDeleted", JVal.num 5)] rfl rfl
  have hB := h.2.1 rfl
  have hA := (h2.1 rfl).1
  exact ⟨⟨rfl, rfl⟩, hB.1.trans rfl, hB.2.2.2, hA⟩

/-- Claim C10: under soft-delete mode, a successful `remove` of an existing
non-deleted record runs the update pipeline end to end: after the
marker-setting write it broadcasts the cache-clean signal and purges the
cacher, then dispatches the `updated` lifecycle event by invoking the
`entityUpdated` hook with the transformed entity; no `removed` event is
dispatched and `entityRemoved` is never invoked on this path, even when the
schema defines it. -/
theorem spec2proof_c10 (env : Env) (store : Store) (id : JVal) (doc : Doc)
    (hid : isArrJ id = false)
    (hfind : adapterFindById "_id" store id = some doc)
    (hnd : getField doc "isDeleted" = .str "-1")
    (hcacher : env.cacher = true)
    (hup : env.hooks.contains "entityUpdated" = true) :
    ∃ json store2,
      (removeAction { softDelete := true } env store [("id", id)]
        = .ok (json, store2,
            [Event.broadcastCacheClean, Event.cacherClean, Event.hook "entityUpdated" json])) ∧
      json = .one (transformDoc { softDelete := true } (setField doc "isDeleted" (.num env.now))) ∧
      (∀ j : TDocs, Event.hook "entityRemoved" j
          ∉ [Event.broadcastCacheClean, Event.cacherClean, Event.hook "entityUpdated" json]) := by
  have hev : ∀ J : TDocs, entityChanged env "updated" J
      = [Event.broadcastCacheClean, Event.cacherClean, Event.hook "entityUpdated" J] := by
    intro J
    unfold entityChanged clearCache
    rw [show ("entity" ++ jsCapitalize "updated") = "entityUpdated" from rfl, hcacher, hup]
    simp
  refine ⟨.one (transformDoc { softDelete := true } (setField doc "isDeleted" (.num env.now))),
    store.map (fun e => if JVal.beq (getField e "_id") id
      then setField doc "isDeleted" (.num env.now) else e), ?_, rfl, ?_⟩
  · rw [softRemove_char env store id doc hid hfind hnd, hev]
  · intro j hmem
    simp only [List.mem_cons, List.not_mem_nil, or_false] at hmem
    rcases hmem with h1 | h1 | h1 <;> simp at h1

theorem spec2proof_c10_witness :
    (isArrJ (JVal.num 1) = false ∧
      adapterFindById "_id" [[("_id", JVal.num 1), ("isDeleted", JVal.str "-1")]] (JVal.num 1)
        = some [("_id", JVal.num 1), ("isDeleted", JVal.str "-1")] ∧
      getField [("_id", JVal.num 1), ("isDeleted", JVal.str "-1")] "isDeleted" = JVal.str "-1" ∧
      ({ hooks := ["entityUpdated", "entityRemoved"], now := 99 } : Env).cacher = true ∧
      (["entityUpdated", "entityRemoved"] : List String).contains "entityUpdated" = true) ∧
    (∃ json store2,
      (removeAction { softDelete := true } { hooks := ["entityUpdated", "entityRemoved"], now := 99 }
          [[("_id", JVal.num 1), ("isDeleted", JVal.str "-1")]] [("id", JVal.num 1)]
        = .ok (json, store2,
            [Event.broadcastCacheClean, Event.cacherClean, Event.hook "entityUpdated" json])) ∧
      json = .one (transformDoc { softDelete := true }
        (setField [("_id", JVal.num 1), ("isDeleted", JVal.str "-1")] "isDeleted" (.num 99))) ∧
      (∀ j : TDocs, Event.hook "entityRemoved" j
          ∉ [Event.broadcastCacheClean, Event.cacherClean, Event.hook "entityUpdated" json])) := by
  refine ⟨⟨rfl, rfl, rfl, rfl, by decide⟩, ?_⟩
  exact spec2proof_c10 { hooks := ["entityUpdated", "entityRemoved"], now := 99 }
    [[("_id", JVal.num 1), ("isDeleted", JVal.str "-1")]] (JVal.num 1)
    [("_id", JVal.num 1), ("isDeleted", JVal.str "-1")] rfl rfl rfl rfl (by decide)
